import Mathlib

/-!
# ActivityLogDetailModal: diff engine, tab auto-switch and IP enrichment lifecycle

A shallow embedding of `src/frontend/src/components/Activity/ActivityLogDetailModal.jsx`.

* JavaScript values that the component reads (`log`, the axios response, the
  thrown failure) are trees of type `JSValue`: JSON data plus `undefined`.
* Operations that raise `TypeError` in JavaScript (reading a property of
  `null`/`undefined`, `Object.keys` of them) return `Except JSError`.
* React state is passed explicitly; an effect is a function on the state, and
  the asynchronous `fetchIp` is split at its single `await` into the part run
  when the effect fires and the continuation run when the request settles.
-/

namespace ActivityLogDetailModal

/-! ## JavaScript values -/

/-- JavaScript values as they reach the component: JSON data and `undefined`.
Numbers are the integer-valued ones (printed in decimal by `JSON.stringify`);
an object lists its own enumerable properties in the order `Object.keys`
reports them. -/
inductive JSValue where
  | undefined : JSValue
  | null : JSValue
  | bool (b : Bool) : JSValue
  | num (n : Int) : JSValue
  | str (s : String) : JSValue
  | arr (items : List JSValue) : JSValue
  | obj (props : List (String × JSValue)) : JSValue

/-- The exception a JavaScript operation of the component can raise. -/
inductive JSError where
  | typeError : JSError

/-- One row of the changes table, as pushed by `getChangeDetails`. -/
structure ChangeEntry where
  field : String
  oldValue : JSValue
  newValue : JSValue

namespace JSValue

/-- JavaScript truthiness (`!!v`). -/
def truthy : JSValue → Bool
  | undefined => false
  | null => false
  | bool b => b
  | num n => n != 0
  | str s => s != ""
  | arr _ => true
  | obj _ => true

/-- The values `null` and `undefined`, on which a property read throws. -/
def nullish : JSValue → Bool
  | undefined => true
  | null => true
  | _ => false

/-- Own property lookup in a property list (first binding of the key). -/
def lookupProp : List (String × JSValue) → String → JSValue
  | [], _ => undefined
  | (k, v) :: ps, key => if k = key then v else lookupProp ps key

/-- The array index a property key denotes, when it is a canonical decimal
index such as `"0"` or `"17"`. -/
def arrayIndex (key : String) : Option Nat :=
  let cs := key.toList
  if cs.all Char.isDigit && (cs.length == 1 || (cs.length > 1 && cs.head? != some '0')) then
    some (cs.foldl (fun n c => 10 * n + (c.toNat - 48)) 0)
  else none

/-- The value of `v[key]` for a `v` that is neither `null` nor `undefined`:
own properties of objects, elements and `length` of arrays, characters and
`length` of strings (exact for strings of Basic Multilingual Plane characters);
inherited prototype members are not part of the tree model and read as
`undefined`. -/
def getOwn : JSValue → String → JSValue
  | obj ps, key => lookupProp ps key
  | arr xs, key =>
    if key = "length" then num xs.length
    else match arrayIndex key with
      | some i => xs.getD i undefined
      | none => undefined
  | str s, key =>
    if key = "length" then num s.length
    else match arrayIndex key with
      | some i => if i < s.length then str (String.mk [s.toList.getD i ' ']) else undefined
      | none => undefined
  | _, _ => undefined

/-- The property read `v[key]` / `v.key`: throws on `null` and `undefined`. -/
def getProp (v : JSValue) (key : String) : Except JSError JSValue :=
  if v.nullish then .error .typeError else .ok (v.getOwn key)

/-- The optional-chaining read `v?.key`. -/
def optChain (v : JSValue) (key : String) : JSValue :=
  if v.nullish then undefined else v.getOwn key

/-- The own enumerable string keys of a value that is neither `null` nor
`undefined`, in `Object.keys` order. -/
def ownKeys : JSValue → List String
  | obj ps => ps.map Prod.fst
  | arr xs => (List.range xs.length).map toString
  | str s => (List.range s.length).map toString
  | _ => []

/-- The call `Object.keys(v)`: throws on `null` and `undefined`. -/
def objectKeys (v : JSValue) : Except JSError (List String) :=
  if v.nullish then .error .typeError else .ok v.ownKeys

/-- The escape `JSON.stringify` writes for one character of a string. -/
def quoteChar (c : Char) : String :=
  if c = '"' then "\\\"" else
  if c = '\\' then "\\\\" else
  if c.toNat = 8 then "\\b" else
  if c.toNat = 12 then "\\f" else
  if c = '\n' then "\\n" else
  if c = '\r' then "\\r" else
  if c = '\t' then "\\t" else
  if c.toNat < 32 then
    "\\u00" ++ String.mk [Nat.digitChar (c.toNat / 16), Nat.digitChar (c.toNat % 16)]
  else String.mk [c]

/-- The quoted form `JSON.stringify` gives a string or a property key. -/
def quote (s : String) : String :=
  "\"" ++ String.join (s.toList.map quoteChar) ++ "\""

mutual
/-- The call `JSON.stringify(v)`; `none` is the result `undefined`. -/
def stringify : JSValue → Option String
  | undefined => none
  | null => some "null"
  | bool b => some (if b then "true" else "false")
  | num n => some (toString n)
  | str s => some (quote s)
  | arr xs => some ("[" ++ ",".intercalate (stringifyItems xs) ++ "]")
  | obj ps => some ("\x7b" ++ ",".intercalate (stringifyProps ps) ++ "\x7d")
/-- Array elements: an element without a serialization is written `null`. -/
def stringifyItems : List JSValue → List String
  | [] => []
  | x :: xs => (stringify x).getD "null" :: stringifyItems xs
/-- Object members in property order: a property without a serialization is
left out. -/
def stringifyProps : List (String × JSValue) → List String
  | [] => []
  | (k, v) :: ps =>
    match stringify v with
    | some s => (quote k ++ ":" ++ s) :: stringifyProps ps
    | none => stringifyProps ps
end

/-- Strict equality `v === s` with a string literal `s`. -/
def strictEqStr : JSValue → String → Bool
  | str t, s => t == s
  | _, _ => false

/-- The comparison `Object.is` React applies to effect dependencies. Primitive
values compare by value; arrays and objects compare by reference, which the
tree model does not carry, so two of them are taken to be distinct references. -/
def objectIs : JSValue → JSValue → Bool
  | undefined, undefined => true
  | null, null => true
  | bool a, bool b => a == b
  | num a, num b => a == b
  | str a, str b => a == b
  | _, _ => false

end JSValue

open JSValue

/-! ## The diff engine: `getChangeDetails` (lines 67-86) -/

/-- The callback passed to `forEach` (lines 74-82): appends an entry for `key`
to `changes` when the two serializations differ. -/
def pushIfChanged (oldValues newValues : JSValue) (changes : List ChangeEntry)
    (key : String) : Except JSError (List ChangeEntry) := do
  let o ← oldValues.getProp key
  let n ← newValues.getProp key
  if stringify o ≠ stringify n then
    pure (changes ++ [{ field := key, oldValue := o, newValue := n }])
  else
    pure changes

/-- The function `getChangeDetails` of the component, for the prop `log`;
`none` is the returned `null`. -/
def getChangeDetails (log : JSValue) : Except JSError (Option (List ChangeEntry)) := do
  if !(log.optChain "changes").truthy then
    pure none
  else
    let c ← log.getProp "changes"
    let oldValues ← c.getProp "oldValues"
    let newValues ← c.getProp "newValues"
    if oldValues.truthy && newValues.truthy then
      let keys ← objectKeys newValues
      let changes ← keys.foldlM (pushIfChanged oldValues newValues) []
      pure (some changes)
    else
      pure (some [])

/-! ## Tabs and the changes view (lines 6, 12-18, 123, 321-368) -/

/-- What the changes tab shows (lines 323-368): the table of rows, or the
"No Changes Detected" panel. -/
inductive ChangesView where
  | table (rows : List ChangeEntry) : ChangesView
  | noChangesDetected : ChangesView

/-- The content rendered under `activeTab === 'changes'` (lines 321-368), by
the test `changes && changes.length > 0`; `none` when that tab is not the
active one. -/
def changesTabContent (activeTab : String) (changes : Option (List ChangeEntry)) :
    Option ChangesView :=
  if activeTab = "changes" then
    match changes with
    | some cs => if cs.length > 0 then some (.table cs) else some .noChangesDetected
    | none => some .noChangesDetected
  else none

/-- The initial value of `activeTab` (line 6). -/
def initialTab : String := "changes"

/-- The click handler of a tab button (line 123): `setActiveTab(tab)`. -/
def selectTab (tab : String) (_activeTab : String) : String := tab

/-- The test `!changes || changes.length === 0` of line 14. -/
def noChanges : Option (List ChangeEntry) → Bool
  | some cs => cs.length == 0
  | none => true

/-- One run of the auto-switch effect (lines 12-16): the value of `activeTab`
after it. -/
def autoSwitchEffect (log : JSValue) (activeTab : String) : Except JSError String := do
  let changes ← getChangeDetails log
  if activeTab = "changes" && noChanges changes then
    pure "overview"
  else
    pure activeTab

/-! ## The IP enrichment state and `fetchIp` (lines 7-9, 21-60) -/

/-- The three state variables `ipDetails`, `ipLoading`, `ipError`. -/
structure IpState where
  ipDetails : JSValue
  ipLoading : Bool
  ipError : JSValue

/-- Their initial values (lines 7-9). -/
def IpState.initial : IpState :=
  { ipDetails := .null, ipLoading := false, ipError := .null }

/-- How the promise of `axios.get` settles: fulfilled with a response, or
rejected with a thrown value. -/
inductive Outcome where
  | resolved (res : JSValue) : Outcome
  | rejected (err : JSValue) : Outcome

/-- The part of `fetchIp` run before the `await` (lines 30-31). -/
def fetchIpStart (s : IpState) : IpState :=
  { s with ipLoading := true, ipError := .null }

/-- The operand `a || b` of JavaScript. -/
def jsOr (a b : JSValue) : JSValue := if a.truthy then a else b

/-- The part of `fetchIp` run once the request has settled (lines 39-53), for
the current value `mounted` of the flag its closure captured. In the success
branch `res` is neither `null` nor `undefined`, so `res.data` is a plain read.
A rejection with `null` or `undefined` makes `err.message` throw inside the
`catch` block, after `setIpDetails(null)`; the `finally` block still runs. -/
def fetchIpSettle (mounted : Bool) (o : Outcome) (s : IpState) : IpState :=
  match o with
  | .resolved res =>
    if !mounted then s
    else if strictEqStr ((res.optChain "data").optChain "status") "success" then
      { s with ipDetails := res.getOwn "data", ipLoading := false }
    else
      { ipDetails := .null
        ipError := jsOr ((res.optChain "data").optChain "message") (.str "Failed to fetch IP info")
        ipLoading := false }
  | .rejected err =>
    if !mounted then s
    else match err.getProp "message" with
      | .ok msg =>
        { ipDetails := .null, ipError := jsOr msg (.str "Network error"), ipLoading := false }
      | .error _ =>
        { s with ipDetails := .null, ipLoading := false }

/-- A request issued by `axios.get` during the mount: the address it queries
(the URL of line 36 is built from it alone), the `mounted` flag of the effect
run that issued it, and whether it has settled. -/
structure Fetch where
  ip : JSValue
  mounted : Bool
  settled : Bool

/-- A mounted instance of the component, as far as the IP effect goes. -/
structure Modal where
  /-- The state variables. -/
  state : IpState
  /-- Every request issued so far, oldest first. -/
  fetches : List Fetch
  /-- The cleanup function the last effect run returned: the index of the
  request whose `mounted` flag it clears. -/
  cleanup : Option Nat
  /-- The dependency `log?.ipAddress` of the last effect run. -/
  deps : Option JSValue
  /-- Whether the component has been unmounted. -/
  unmounted : Bool

/-- The instance before its first render. -/
def Modal.initial : Modal :=
  { state := IpState.initial, fetches := [], cleanup := none, deps := none, unmounted := false }

/-- Clears the `mounted` flag of the request at index `i`. -/
def clearMounted : List Fetch → Nat → List Fetch
  | [], _ => []
  | f :: fs, 0 => { f with mounted := false } :: fs
  | f :: fs, i + 1 => f :: clearMounted fs i

/-- Marks the request at index `i` as settled. -/
def markSettled : List Fetch → Nat → List Fetch
  | [], _ => []
  | f :: fs, 0 => { f with settled := true } :: fs
  | f :: fs, i + 1 => f :: markSettled fs i

/-- Runs the pending cleanup function (lines 57-59), if there is one. -/
def runCleanup (m : Modal) : Modal :=
  match m.cleanup with
  | some i => { m with fetches := clearMounted m.fetches i, cleanup := none }
  | none => m

/-- The body of the fetch effect (lines 22-59) for the prop `log`. Past the
guard of line 22 `log` is neither `null` nor `undefined`, so `log.ipAddress`
is a plain read. -/
def ipEffect (log : JSValue) (m : Modal) : Modal :=
  if !(log.optChain "ipAddress").truthy then
    { m with
      state := { m.state with ipDetails := .null, ipError := .null }
      cleanup := none }
  else
    { m with
      state := fetchIpStart m.state
      fetches := m.fetches ++ [{ ip := log.getOwn "ipAddress", mounted := true, settled := false }]
      cleanup := some m.fetches.length }

/-- Whether React runs the effect after this render: on the first render, and
whenever the dependency `log?.ipAddress` is not the previous one. -/
def depsChanged (log : JSValue) (m : Modal) : Bool :=
  match m.deps with
  | some d => !objectIs d (log.optChain "ipAddress")
  | none => true

/-- A render committed with the prop `log`: when the dependency changed, the
previous cleanup runs and then the effect body. -/
def render (log : JSValue) (m : Modal) : Modal :=
  if m.unmounted then m
  else if depsChanged log m then
    ipEffect log (runCleanup { m with deps := some (log.optChain "ipAddress") })
  else m

/-- The request at index `i` settles with outcome `o`. -/
def settle (i : Nat) (o : Outcome) (m : Modal) : Modal :=
  match m.fetches.get? i with
  | some f =>
    if f.settled then m
    else { m with state := fetchIpSettle f.mounted o m.state, fetches := markSettled m.fetches i }
  | none => m

/-- The component is removed: the pending cleanup runs. -/
def unmount (m : Modal) : Modal :=
  { runCleanup m with unmounted := true }

/-- What can happen to a mounted instance. -/
inductive Event where
  | render (log : JSValue) : Event
  | settle (i : Nat) (o : Outcome) : Event
  | unmount : Event

/-- One event. -/
def step (m : Modal) : Event → Modal
  | .render log => render log m
  | .settle i o => settle i o m
  | .unmount => unmount m

/-- A sequence of events, from the left. -/
def run (m : Modal) (es : List Event) : Modal := es.foldl step m

/-- The addresses of the requests issued so far, oldest first. -/
def issued (m : Modal) : List JSValue := m.fetches.map Fetch.ip

/-- The value `details` of line 90: `ipDetails || log.ipDetails || null`. -/
def presentedDetails (log : JSValue) (ipDetails : JSValue) : Except JSError JSValue :=
  if ipDetails.truthy then pure ipDetails
  else do
    let d ← log.getProp "ipDetails"
    pure (jsOr d .null)

/-! ## Reference definitions for the statements -/

/-- The value `log?.changes?.oldValues`. -/
def oldValuesOf (log : JSValue) : JSValue := (log.optChain "changes").optChain "oldValues"

/-- The value `log?.changes?.newValues`. -/
def newValuesOf (log : JSValue) : JSValue := (log.optChain "changes").optChain "newValues"

/-- The changes tab as one render produces it for the prop `log` and the state
`ipDetails`: the body of the component computes `changes` (line 88), then
`details` (line 90, which throws when it reads `log.ipDetails` of a `null` or
`undefined` log), and only then builds the content of lines 321-368. -/
def renderChangesTab (log : JSValue) (ipDetails : JSValue) (activeTab : String) :
    Except JSError (Option ChangesView) := do
  let changes ← getChangeDetails log
  let _details ← presentedDetails log ipDetails
  pure (changesTabContent activeTab changes)

/-- The entry the diff reports for `key`, if any: present exactly when the
serializations of `oldValues[key]` and `newValues[key]` differ. -/
def changeFor (oldValues newValues : JSValue) (key : String) : Option ChangeEntry :=
  if stringify (oldValues.getOwn key) ≠ stringify (newValues.getOwn key) then
    some { field := key, oldValue := oldValues.getOwn key, newValue := newValues.getOwn key }
  else none

mutual
/-- Deep (structural) equality of two values: the same primitive, arrays with
deeply equal elements in the same positions, objects holding the same keys
with deeply equal values, whatever the order of the keys. -/
def deepEqual : JSValue → JSValue → Bool
  | .undefined, .undefined => true
  | .null, .null => true
  | .bool a, .bool b => a == b
  | .num a, .num b => a == b
  | .str a, .str b => a == b
  | .arr xs, .arr ys => deepEqualItems xs ys
  | .obj ps, .obj qs => ps.length == qs.length && deepEqualProps ps qs
  | _, _ => false
/-- Elementwise deep equality of two arrays. -/
def deepEqualItems : List JSValue → List JSValue → Bool
  | [], [] => true
  | x :: xs, y :: ys => deepEqual x y && deepEqualItems xs ys
  | _, _ => false
/-- Every property of the first list is a property of the second, with a
deeply equal value. -/
def deepEqualProps : List (String × JSValue) → List (String × JSValue) → Bool
  | [], _ => true
  | (k, v) :: ps, qs =>
    qs.any (fun q => q.1 == k) && deepEqual v (lookupProp qs k) && deepEqualProps ps qs
end

/-- The addresses requested over a sequence of events, read off the renders
alone: a render whose `log?.ipAddress` is the dependency `prev` of the last
effect run requests nothing; any other render requests its address when that
is non-empty and nothing otherwise; nothing is requested after the unmount. -/
def requestsFor (prev : Option JSValue) : List Event → List JSValue
  | [] => []
  | .render log :: es =>
    let changed : Bool :=
      match prev with
      | some d => !objectIs d (log.optChain "ipAddress")
      | none => true
    if changed then
      (if (log.optChain "ipAddress").truthy then [log.optChain "ipAddress"] else [])
        ++ requestsFor (some (log.optChain "ipAddress")) es
    else requestsFor prev es
  | .settle _ _ :: es => requestsFor prev es
  | .unmount :: _ => []

/-- What holds of every instance reached from `Modal.initial`: only the
request the pending cleanup points at can still be live; while a live request
is unsettled, the error is `null` and the loading flag is set; every request
was issued for a non-empty address. -/
structure Inv (m : Modal) : Prop where
  only_cleanup : ∀ (i : Nat) (f : Fetch), m.fetches[i]? = some f → f.mounted = true →
    m.cleanup = some i
  live_state : ∀ (i : Nat) (f : Fetch), m.fetches[i]? = some f → f.mounted = true →
    f.settled = false → m.state.ipError = .null ∧ m.state.ipLoading = true
  ip_truthy : ∀ f ∈ m.fetches, f.ip.truthy = true

/-! ## Reading a serialization back -/

/-- The number a list of decimal digit characters denotes. -/
def digitsVal (cs : List Char) : Nat := cs.foldl (fun n c => 10 * n + (c.toNat - 48)) 0

/-- No decimal digit stands at the head of the list. -/
def NoDigitHead (r : List Char) : Prop := ∀ c, r.head? = some c → c.isDigit = false

/-- The value of a lower-case hexadecimal digit character. -/
def hexVal (c : Char) : Nat := if c.isDigit then c.toNat - 48 else c.toNat - 87

/-- The character a two-character escape `\e` stands for. -/
def unescape (e : Char) : Char :=
  if e = 'b' then Char.ofNat 8 else
  if e = 'f' then Char.ofNat 12 else
  if e = 'n' then '\n' else
  if e = 'r' then '\r' else
  if e = 't' then '\t' else e

/-- Reads one character of a string back from the front of its quoted form. -/
def decodeOne : List Char → Option (Char × List Char)
  | [] => none
  | c :: t =>
    if c = '\\' then
      match t with
      | [] => none
      | e :: t1 =>
        if e = 'u' then
          match t1 with
          | _ :: _ :: h1 :: h2 :: t2 => some (Char.ofNat (16 * hexVal h1 + hexVal h2), t2)
          | _ => none
        else some (unescape e, t1)
    else some (c, t)

/-- The characters between the quotes of `quote s`. -/
def bodyChars (cs : List Char) : List Char := cs.flatMap (fun c => (quoteChar c).data)

mutual
/-- JSON data: a value with no `undefined` in it. -/
def isJson : JSValue → Bool
  | .undefined => false
  | .null => true
  | .bool _ => true
  | .num _ => true
  | .str _ => true
  | .arr xs => isJsonItems xs
  | .obj ps => isJsonProps ps
/-- Every element is JSON data. -/
def isJsonItems : List JSValue → Bool
  | [] => true
  | x :: xs => isJson x && isJsonItems xs
/-- Every property value is JSON data. -/
def isJsonProps : List (String × JSValue) → Bool
  | [] => true
  | (_, v) :: ps => isJson v && isJsonProps ps
end

/-- The pieces joined by commas. -/
def joinSep : List (List Char) → List Char
  | [] => []
  | a :: as => a ++ as.flatMap (fun x => ',' :: x)

mutual
/-- The characters of `JSON.stringify(v)` for JSON data `v`. -/
def chars : JSValue → List Char
  | .undefined => []
  | .null => ['n', 'u', 'l', 'l']
  | .bool b => if b then ['t', 'r', 'u', 'e'] else ['f', 'a', 'l', 's', 'e']
  | .num n => (toString n).data
  | .str s => (quote s).data
  | .arr xs => '[' :: (joinSep (itemChars xs) ++ [']'])
  | .obj ps => '{' :: (joinSep (propChars ps) ++ ['}'])
/-- The characters of each element. -/
def itemChars : List JSValue → List (List Char)
  | [] => []
  | x :: xs => chars x :: itemChars xs
/-- The characters of each member `"key":value`. -/
def propChars : List (String × JSValue) → List (List Char)
  | [] => []
  | (k, v) :: ps => ((quote k).data ++ ':' :: chars v) :: propChars ps
end

/-- The constructor of a value, as a number. -/
def tag : JSValue → Nat
  | .undefined => 0
  | .null => 1
  | .bool _ => 2
  | .num _ => 3
  | .str _ => 4
  | .arr _ => 5
  | .obj _ => 6

/-- The kind of value whose serialization starts with the character. -/
def tagOfChar (c : Char) : Nat :=
  if c = 'n' then 1 else
  if c = 't' then 2 else
  if c = 'f' then 2 else
  if c = '-' then 3 else
  if c.isDigit then 3 else
  if c = '"' then 4 else
  if c = '[' then 5 else
  if c = '{' then 6 else 0

/-- The elements after the first, each preceded by its comma. -/
def tailChars (l : List (List Char)) : List Char := l.flatMap (fun x => ',' :: x)

/-! ## Sample inputs -/

/-- The log `{action:"UPDATE", changes:{oldValues:{name:"A"}, newValues:{name:"B", age:5}}}`. -/
def updateLog : JSValue :=
  .obj [("action", .str "UPDATE"),
    ("changes", .obj [("oldValues", .obj [("name", .str "A")]),
      ("newValues", .obj [("name", .str "B"), ("age", .num 5)])])]

/-- A log whose `profile` field holds the same keys and values before and
after, written in a different key order. -/
def reorderedLog : JSValue :=
  .obj [("action", .str "UPDATE"),
    ("changes", .obj [("oldValues", .obj [("profile", .obj [("x", .num 1), ("y", .num 2)])]),
      ("newValues", .obj [("profile", .obj [("y", .num 2), ("x", .num 1)])])])]

/-- A log without `changes`. -/
def loginLog : JSValue := .obj [("action", .str "LOGIN")]

/-- A log whose `changes` lacks `oldValues`. -/
def createLog : JSValue :=
  .obj [("action", .str "CREATE"), ("changes", .obj [("newValues", .obj [("name", .str "B")])])]

/-- A log with the server-supplied `ipDetails = {country:"FR"}` and no address. -/
def frenchLog : JSValue := .obj [("ipDetails", .obj [("country", .str "FR")])]

/-- A log with the given `ipAddress`. -/
def logWithIp (ip : String) : JSValue := .obj [("ipAddress", .str ip)]

/-- The response `{data: {status:"success", country:"US", city:"Mountain View"}}`. -/
def successResponse : JSValue :=
  .obj [("data", .obj [("status", .str "success"), ("country", .str "US"),
    ("city", .str "Mountain View")])]

/-- The response `{data: {status:"fail", message:"invalid query"}}`. -/
def failResponse : JSValue :=
  .obj [("data", .obj [("status", .str "fail"), ("message", .str "invalid query")])]

/-- A thrown failure `{message: "timeout of 8000ms exceeded"}`. -/
def timeoutFailure : JSValue := .obj [("message", .str "timeout of 8000ms exceeded")]

/-! ## Facts about the value operations -/

theorem truthy_not_nullish {v : JSValue} (h : v.truthy = true) : v.nullish = false := by
  cases v <;> simp_all [truthy, nullish]

theorem getProp_of_truthy {v : JSValue} (h : v.truthy = true) (key : String) :
    v.getProp key = .ok (v.getOwn key) := by
  simp [getProp, truthy_not_nullish h]

theorem optChain_of_truthy {v : JSValue} (h : v.truthy = true) (key : String) :
    v.optChain key = v.getOwn key := by
  simp [optChain, truthy_not_nullish h]

theorem truthy_of_optChain_truthy {v : JSValue} {key : String}
    (h : (v.optChain key).truthy = true) : v.nullish = false := by
  cases v <;> simp_all [optChain, truthy, nullish]

/-! ## The diff engine -/

theorem pushIfChanged_eq {oldValues newValues : JSValue} (ho : oldValues.truthy = true)
    (hn : newValues.truthy = true) (changes : List ChangeEntry) (key : String) :
    pushIfChanged oldValues newValues changes key
      = .ok (changes ++ (changeFor oldValues newValues key).toList) := by
  unfold pushIfChanged changeFor
  rw [getProp_of_truthy ho, getProp_of_truthy hn]
  by_cases h : stringify (oldValues.getOwn key) = stringify (newValues.getOwn key)
  · simp [h, bind, Except.bind, pure, Except.pure]
  · simp [h, bind, Except.bind, pure, Except.pure]

theorem foldlM_pushIfChanged {oldValues newValues : JSValue} (ho : oldValues.truthy = true)
    (hn : newValues.truthy = true) (keys : List String) (changes : List ChangeEntry) :
    keys.foldlM (pushIfChanged oldValues newValues) changes
      = .ok (changes ++ keys.filterMap (changeFor oldValues newValues)) := by
  induction keys generalizing changes with
  | nil => simp [pure, Except.pure]
  | cons k ks ih =>
    rw [List.foldlM_cons, pushIfChanged_eq ho hn]
    simp only [bind, Except.bind]
    rw [ih]
    cases hk : changeFor oldValues newValues k <;> simp [List.filterMap_cons, hk]

theorem getChangeDetails_eq (log : JSValue)
    (hc : (log.optChain "changes").truthy = true)
    (ho : ((log.optChain "changes").getOwn "oldValues").truthy = true)
    (hn : ((log.optChain "changes").getOwn "newValues").truthy = true) :
    getChangeDetails log = .ok (some
      (((log.optChain "changes").getOwn "newValues").ownKeys.filterMap
        (changeFor ((log.optChain "changes").getOwn "oldValues")
          ((log.optChain "changes").getOwn "newValues")))) := by
  have hl : log.nullish = false := truthy_of_optChain_truthy hc
  have ec : log.optChain "changes" = log.getOwn "changes" := by simp [optChain, hl]
  rw [ec] at hc ho hn ⊢
  simp [getChangeDetails, ec, hc, getProp, hl, truthy_not_nullish hc, objectKeys,
    truthy_not_nullish hn, ho, hn, foldlM_pushIfChanged ho hn, bind, Except.bind, pure,
    Except.pure]

theorem getChangeDetails_absent (log : JSValue)
    (hc : (log.optChain "changes").truthy = false) :
    getChangeDetails log = .ok none := by
  unfold getChangeDetails
  simp [hc, pure, Except.pure]

theorem getChangeDetails_partial (log : JSValue)
    (hc : (log.optChain "changes").truthy = true)
    (h : ((log.optChain "changes").getOwn "oldValues").truthy = false
      ∨ ((log.optChain "changes").getOwn "newValues").truthy = false) :
    getChangeDetails log = .ok (some []) := by
  have hl : log.nullish = false := truthy_of_optChain_truthy hc
  have ec : log.optChain "changes" = log.getOwn "changes" := by simp [optChain, hl]
  rw [ec] at hc h
  rcases h with h | h <;>
    simp [getChangeDetails, ec, hc, getProp, hl, truthy_not_nullish hc, h, bind, Except.bind,
      pure, Except.pure]

theorem getChangeDetails_total (log : JSValue) : ∃ r, getChangeDetails log = .ok r := by
  cases hc : (log.optChain "changes").truthy
  · exact ⟨_, getChangeDetails_absent log hc⟩
  · cases ho : ((log.optChain "changes").getOwn "oldValues").truthy
    · exact ⟨_, getChangeDetails_partial log hc (Or.inl ho)⟩
    · cases hn : ((log.optChain "changes").getOwn "newValues").truthy
      · exact ⟨_, getChangeDetails_partial log hc (Or.inr hn)⟩
      · exact ⟨_, getChangeDetails_eq log hc ho hn⟩

theorem truthy_of_optChain {v : JSValue} {key : String}
    (h : (v.optChain key).truthy = true) : v.truthy = true := by
  cases v with
  | undefined => simp [optChain, nullish, truthy] at h
  | null => simp [optChain, nullish, truthy] at h
  | bool b => simp [optChain, nullish, getOwn, truthy] at h
  | num n => simp [optChain, nullish, getOwn, truthy] at h
  | arr xs => rfl
  | obj ps => rfl
  | str s =>
    by_cases hs : s = ""
    · subst hs
      exfalso
      simp only [optChain, nullish, getOwn] at h
      by_cases hl : key = "length"
      · simp [hl, truthy] at h
      · cases hi : arrayIndex key <;> simp [hl, hi, truthy] at h
    · simp [truthy, hs]

theorem oldValuesOf_eq {log : JSValue} (hc : (log.optChain "changes").truthy = true) :
    oldValuesOf log = (log.optChain "changes").getOwn "oldValues" :=
  optChain_of_truthy hc _

theorem newValuesOf_eq {log : JSValue} (hc : (log.optChain "changes").truthy = true) :
    newValuesOf log = (log.optChain "changes").getOwn "newValues" :=
  optChain_of_truthy hc _

theorem getChangeDetails_present (log : JSValue)
    (ho : (oldValuesOf log).truthy = true) (hn : (newValuesOf log).truthy = true) :
    getChangeDetails log = .ok (some
      ((newValuesOf log).ownKeys.filterMap (changeFor (oldValuesOf log) (newValuesOf log)))) := by
  have hc : (log.optChain "changes").truthy = true := truthy_of_optChain ho
  rw [oldValuesOf_eq hc] at ho ⊢
  rw [newValuesOf_eq hc] at hn ⊢
  exact getChangeDetails_eq log hc ho hn

theorem changeFor_field {o n : JSValue} {k : String} {e : ChangeEntry}
    (h : changeFor o n k = some e) :
    e = ⟨k, o.getOwn k, n.getOwn k⟩ ∧ stringify (o.getOwn k) ≠ stringify (n.getOwn k) := by
  unfold changeFor at h
  split at h
  · rename_i hne
    simp only [Option.some.injEq] at h
    exact ⟨h.symm, hne⟩
  · simp at h

theorem mem_filterMap_changeFor {o n : JSValue} {keys : List String} {e : ChangeEntry}
    (h : e ∈ keys.filterMap (changeFor o n)) :
    e.field ∈ keys ∧ stringify (o.getOwn e.field) ≠ stringify (n.getOwn e.field)
      ∧ e.oldValue = o.getOwn e.field ∧ e.newValue = n.getOwn e.field := by
  obtain ⟨k, hk, hke⟩ := List.mem_filterMap.1 h
  obtain ⟨he, hne⟩ := changeFor_field hke
  subst he
  exact ⟨hk, hne, rfl, rfl⟩

theorem map_field_filterMap_changeFor (o n : JSValue) (keys : List String) :
    ((keys.filterMap (changeFor o n)).map ChangeEntry.field).Sublist keys := by
  induction keys with
  | nil => simp
  | cons k ks ih =>
    cases hk : changeFor o n k with
    | none => simpa [List.filterMap_cons, hk] using ih.cons k
    | some e =>
      have := (changeFor_field hk).1
      subst this
      simpa [List.filterMap_cons, hk] using ih.cons₂ k

theorem filter_field_of_not_mem (o n : JSValue) (keys : List String) (k : String)
    (hk : k ∉ keys) :
    (keys.filterMap (changeFor o n)).filter (fun e => e.field == k) = [] := by
  rw [List.filter_eq_nil_iff]
  intro e he
  have := (mem_filterMap_changeFor he).1
  simp only [beq_iff_eq]
  intro hf
  exact hk (hf ▸ this)

theorem filter_field_of_mem (o n : JSValue) (keys : List String) (k : String)
    (hnd : keys.Nodup) (hk : k ∈ keys)
    (hne : stringify (o.getOwn k) ≠ stringify (n.getOwn k)) :
    (keys.filterMap (changeFor o n)).filter (fun e => e.field == k)
      = [⟨k, o.getOwn k, n.getOwn k⟩] := by
  induction keys with
  | nil => simp at hk
  | cons a as ih =>
    rw [List.nodup_cons] at hnd
    by_cases hak : a = k
    · subst hak
      have hcf : changeFor o n a = some ⟨a, o.getOwn a, n.getOwn a⟩ := by
        simp [changeFor, hne]
      rw [List.filterMap_cons, hcf, List.filter_cons]
      simp [filter_field_of_not_mem o n as a hnd.1]
    · have hk' : k ∈ as := by
        rcases List.mem_cons.1 hk with h | h
        · exact absurd h.symm hak
        · exact h
      cases hcf : changeFor o n a with
      | none => simpa [List.filterMap_cons, hcf] using ih hnd.2 hk'
      | some e =>
        have := (changeFor_field hcf).1
        subst this
        rw [List.filterMap_cons, hcf, List.filter_cons]
        simpa [hak] using ih hnd.2 hk'

/-! ## `JSON.stringify` is injective on JSON data -/

theorem toDigitsCore_append (f n : Nat) (ds : List Char) :
    Nat.toDigitsCore 10 f n ds = Nat.toDigitsCore 10 f n [] ++ ds := by
  induction f generalizing n ds with
  | zero => simp [Nat.toDigitsCore]
  | succ f ih =>
    simp only [Nat.toDigitsCore]
    split
    · simp
    · rw [ih (n / 10) (Nat.digitChar (n % 10) :: ds), ih (n / 10) [Nat.digitChar (n % 10)]]
      simp

theorem digitChar_val (d : Nat) (h : d < 10) :
    (Nat.digitChar d).toNat - 48 = d ∧ (Nat.digitChar d).isDigit = true := by
  interval_cases d <;> decide

theorem digitsVal_append (cs : List Char) (c : Char) :
    digitsVal (cs ++ [c]) = 10 * digitsVal cs + (c.toNat - 48) := by
  simp [digitsVal, List.foldl_append]

theorem toDigitsCore_spec (f n : Nat) (h : n < f) :
    digitsVal (Nat.toDigitsCore 10 f n []) = n
    ∧ (∀ c ∈ Nat.toDigitsCore 10 f n [], c.isDigit = true)
    ∧ Nat.toDigitsCore 10 f n [] ≠ [] := by
  induction f generalizing n with
  | zero => omega
  | succ f ih =>
    simp only [Nat.toDigitsCore]
    have hd := digitChar_val (n % 10) (Nat.mod_lt _ (by decide))
    split
    · rename_i h0
      have hn : n % 10 = n := by omega
      refine ⟨?_, ?_, by simp⟩
      · simp only [digitsVal, List.foldl_cons, List.foldl_nil, Nat.mul_zero, Nat.zero_add]
        rw [hd.1, hn]
      · intro c hc
        simp only [List.mem_singleton] at hc
        rw [hc]; exact hd.2
    · rename_i h0
      have hlt : n / 10 < f := by omega
      obtain ⟨h1, h2, h3⟩ := ih (n / 10) hlt
      rw [toDigitsCore_append]
      refine ⟨?_, ?_, by simp⟩
      · rw [digitsVal_append, h1, hd.1]
        omega
      · intro c hc
        rcases List.mem_append.1 hc with hc | hc
        · exact h2 c hc
        · simp only [List.mem_singleton] at hc
          rw [hc]; exact hd.2

theorem natRepr_spec (n : Nat) :
    digitsVal (toString n).data = n ∧ (∀ c ∈ (toString n).data, c.isDigit = true)
      ∧ (toString n).data ≠ [] := by
  have := toDigitsCore_spec (n + 1) n (by omega)
  simpa [toString, Nat.repr, Nat.toDigits, List.asString] using this

theorem digits_span (l1 l2 r1 r2 : List Char) (h : l1 ++ r1 = l2 ++ r2)
    (h1 : ∀ c ∈ l1, c.isDigit = true) (h2 : ∀ c ∈ l2, c.isDigit = true)
    (g1 : NoDigitHead r1) (g2 : NoDigitHead r2) : l1 = l2 ∧ r1 = r2 := by
  induction l1 generalizing l2 with
  | nil =>
    cases l2 with
    | nil => exact ⟨rfl, by simpa using h⟩
    | cons c l2 =>
      exfalso
      simp only [List.nil_append, List.cons_append] at h
      have := g1 c (by rw [h]; rfl)
      rw [h2 c (by simp)] at this
      exact absurd this (by decide)
  | cons a l1 ih =>
    cases l2 with
    | nil =>
      exfalso
      simp only [List.nil_append, List.cons_append] at h
      have := g2 a (by rw [← h]; rfl)
      rw [h1 a (by simp)] at this
      exact absurd this (by decide)
    | cons c l2 =>
      simp only [List.cons_append, List.cons.injEq] at h
      obtain ⟨e1, e2⟩ := ih l2 h.2 (fun c hc => h1 c (by simp [hc]))
        (fun c hc => h2 c (by simp [hc]))
      exact ⟨by rw [h.1, e1], e2⟩

theorem intRepr_cases (n : Int) :
    (∃ m : Nat, n = Int.ofNat m ∧ (toString n).data = (toString m).data)
    ∨ (∃ m : Nat, n = Int.negSucc m ∧ (toString n).data = '-' :: (toString (m + 1)).data) := by
  cases n with
  | ofNat m => exact Or.inl ⟨m, rfl, rfl⟩
  | negSucc m => exact Or.inr ⟨m, rfl, rfl⟩

theorem intRepr_inj (n m : Int) (r1 r2 : List Char)
    (h : (toString n).data ++ r1 = (toString m).data ++ r2)
    (g1 : NoDigitHead r1) (g2 : NoDigitHead r2) : n = m ∧ r1 = r2 := by
  have key : ∀ a b : Nat, (toString a).data ++ r1 = (toString b).data ++ r2 → a = b ∧ r1 = r2 := by
    intro a b hab
    obtain ⟨e, er⟩ := digits_span _ _ _ _ hab (natRepr_spec a).2.1 (natRepr_spec b).2.1 g1 g2
    refine ⟨?_, er⟩
    rw [← (natRepr_spec a).1, ← (natRepr_spec b).1, e]
  have hhead : ∀ a : Nat, ∀ t u : List Char, (toString a).data ++ t ≠ '-' :: u := by
    intro a t u hc
    obtain ⟨_, hd, hne⟩ := natRepr_spec a
    cases hl : (toString a).data with
    | nil => exact hne hl
    | cons c cs =>
      rw [hl] at hc hd
      simp only [List.cons_append, List.cons.injEq] at hc
      have := hd c (by simp)
      rw [hc.1] at this
      exact absurd this (by decide)
  rcases intRepr_cases n with ⟨a, rfl, ha⟩ | ⟨a, rfl, ha⟩ <;>
    rcases intRepr_cases m with ⟨b, rfl, hb⟩ | ⟨b, rfl, hb⟩
  · rw [ha, hb] at h
    obtain ⟨e, er⟩ := key a b h
    exact ⟨by rw [e], er⟩
  · rw [ha, hb] at h
    exact absurd h (hhead a _ _)
  · rw [ha, hb] at h
    exact absurd h.symm (hhead b _ _)
  · rw [ha, hb] at h
    simp only [List.cons_append, List.cons.injEq, true_and] at h
    obtain ⟨e, er⟩ := key (a + 1) (b + 1) h
    have : a = b := by omega
    exact ⟨by rw [this], er⟩

theorem intRepr_head (n : Int) :
    ∃ c t, (toString n).data = c :: t ∧ (c = '-' ∨ c.isDigit = true) := by
  rcases intRepr_cases n with ⟨a, _, ha⟩ | ⟨a, _, ha⟩
  · obtain ⟨_, hd, hne⟩ := natRepr_spec a
    rw [ha]
    cases hl : (toString a).data with
    | nil => exact absurd hl hne
    | cons c cs =>
      rw [hl] at hd
      exact ⟨c, cs, rfl, Or.inr (hd c (by simp))⟩
  · exact ⟨'-', _, ha, Or.inl rfl⟩

theorem hexVal_digitChar (d : Nat) (h : d < 16) : hexVal (Nat.digitChar d) = d := by
  interval_cases d <;> decide

theorem char_eq_of_toNat {c : Char} {n : Nat} (h : c.toNat = n) : c = Char.ofNat n := by
  rw [← h, Char.ofNat_toNat]

theorem decodeOne_quoteChar (c : Char) (t : List Char) :
    decodeOne ((quoteChar c).data ++ t) = some (c, t) := by
  unfold quoteChar
  split
  · rename_i h; subst h; rfl
  · split
    · rename_i h; subst h; rfl
    · split
      · rename_i h; rw [char_eq_of_toNat h]; rfl
      · split
        · rename_i h; rw [char_eq_of_toNat h]; rfl
        · split
          · rename_i h; subst h; rfl
          · split
            · rename_i h; subst h; rfl
            · split
              · rename_i h; subst h; rfl
              · split
                · rename_i h
                  have h16 : c.toNat / 16 < 16 := by omega
                  have hm : c.toNat % 16 < 16 := Nat.mod_lt _ (by decide)
                  have hv : 16 * hexVal (Nat.digitChar (c.toNat / 16))
                      + hexVal (Nat.digitChar (c.toNat % 16)) = c.toNat := by
                    rw [hexVal_digitChar _ h16, hexVal_digitChar _ hm]
                    omega
                  show decodeOne ('\\' :: 'u' :: '0' :: '0' :: Nat.digitChar (c.toNat / 16)
                    :: Nat.digitChar (c.toNat % 16) :: t) = some (c, t)
                  simp only [decodeOne, if_true, hv, Char.ofNat_toNat]
                · rename_i h1 h2 _ _ _ _ _ _
                  show decodeOne (c :: t) = some (c, t)
                  simp [decodeOne, h2]

theorem quoteChar_head (c : Char) :
    ∃ h t, (quoteChar c).data = h :: t ∧ h ≠ '"' := by
  unfold quoteChar
  split
  · exact ⟨'\\', _, rfl, by decide⟩
  · rename_i hq
    repeat' split
    all_goals first
      | exact ⟨'\\', _, rfl, by decide⟩
      | exact ⟨c, [], rfl, hq⟩

theorem join_data_aux (l : List String) (acc : String) :
    (l.foldl (fun r s => r ++ s) acc).data = acc.data ++ l.flatMap String.data := by
  induction l generalizing acc with
  | nil => simp
  | cons a l ih => simp [ih, List.append_assoc]

theorem quote_data (s : String) : (quote s).data = '"' :: (bodyChars s.data ++ ['"']) := by
  have : (String.join (s.toList.map quoteChar)).data = bodyChars s.data := by
    unfold String.join
    rw [join_data_aux]
    simp [bodyChars, List.flatMap_map, String.toList]
  simp [quote, this]
  rfl

theorem bodyChars_inj (l1 l2 r1 r2 : List Char)
    (h : bodyChars l1 ++ '"' :: r1 = bodyChars l2 ++ '"' :: r2) : l1 = l2 ∧ r1 = r2 := by
  induction l1 generalizing l2 with
  | nil =>
    cases l2 with
    | nil => simpa [bodyChars] using h
    | cons c l2 =>
      exfalso
      obtain ⟨hd, t, ht, hne⟩ := quoteChar_head c
      simp only [bodyChars, List.flatMap_nil, List.nil_append, List.flatMap_cons, ht,
        List.cons_append, List.append_assoc, List.cons.injEq] at h
      exact hne h.1.symm
  | cons a l1 ih =>
    cases l2 with
    | nil =>
      exfalso
      obtain ⟨hd, t, ht, hne⟩ := quoteChar_head a
      simp only [bodyChars, List.flatMap_nil, List.nil_append, List.flatMap_cons, ht,
        List.cons_append, List.append_assoc, List.cons.injEq] at h
      exact hne h.1
    | cons c l2 =>
      have h' : (quoteChar a).data ++ (bodyChars l1 ++ '"' :: r1)
          = (quoteChar c).data ++ (bodyChars l2 ++ '"' :: r2) := by
        simpa [bodyChars, List.append_assoc] using h
      have hd := congrArg decodeOne h'
      rw [decodeOne_quoteChar, decodeOne_quoteChar] at hd
      simp only [Option.some.injEq, Prod.mk.injEq] at hd
      obtain ⟨e1, e2⟩ := ih l2 hd.2
      exact ⟨by rw [hd.1, e1], e2⟩

theorem quote_inj (s1 s2 : String) (r1 r2 : List Char)
    (h : (quote s1).data ++ r1 = (quote s2).data ++ r2) : s1 = s2 ∧ r1 = r2 := by
  rw [quote_data, quote_data] at h
  simp only [List.cons_append, List.append_assoc, List.singleton_append, List.cons.injEq,
    true_and] at h
  obtain ⟨e1, e2⟩ := bodyChars_inj _ _ _ _ h
  exact ⟨String.ext e1, e2⟩

theorem quote_head (s : String) : ∃ t, (quote s).data = '"' :: t :=
  ⟨_, quote_data s⟩

theorem intercalate_go_data (l : List String) (acc : String) :
    (String.intercalate.go acc "," l).data
      = acc.data ++ l.flatMap (fun a => ',' :: a.data) := by
  induction l generalizing acc with
  | nil => simp [String.intercalate.go]
  | cons a l ih =>
    simp only [String.intercalate.go, ih, String.data_append, List.flatMap_cons,
      List.append_assoc]
    rfl

theorem intercalate_data (l : List (List Char)) :
    (",".intercalate (l.map String.mk)).data = joinSep l := by
  cases l with
  | nil => rfl
  | cons a l =>
    simp only [List.map_cons, String.intercalate, intercalate_go_data, joinSep,
      List.flatMap_map]

mutual
theorem stringify_chars : ∀ v : JSValue, isJson v = true → stringify v = some ⟨chars v⟩
  | .undefined, h => by simp [isJson] at h
  | .null, _ => rfl
  | .bool b, _ => by cases b <;> rfl
  | .num _, _ => rfl
  | .str _, _ => rfl
  | .arr xs, h => by
    have := stringifyItems_chars xs (by simpa [isJson] using h)
    simp only [stringify, chars, this, Option.some.injEq]
    apply String.ext
    simp only [String.data_append, intercalate_data]
    rfl
  | .obj ps, h => by
    have := stringifyProps_chars ps (by simpa [isJson] using h)
    simp only [stringify, chars, this, Option.some.injEq]
    apply String.ext
    simp only [String.data_append, intercalate_data]
    rfl
theorem stringifyItems_chars : ∀ xs : List JSValue, isJsonItems xs = true →
    stringifyItems xs = (itemChars xs).map String.mk
  | [], _ => rfl
  | x :: xs, h => by
    simp only [isJsonItems, Bool.and_eq_true] at h
    simp [stringifyItems, itemChars, stringify_chars x h.1, stringifyItems_chars xs h.2]
theorem stringifyProps_chars : ∀ ps : List (String × JSValue), isJsonProps ps = true →
    stringifyProps ps = (propChars ps).map String.mk
  | [], _ => rfl
  | (k, v) :: ps, h => by
    simp only [isJsonProps, Bool.and_eq_true] at h
    simp only [stringifyProps, propChars, stringify_chars v h.1, stringifyProps_chars ps h.2,
      List.map_cons, List.cons.injEq, and_true]
    apply String.ext
    simp
end

theorem tagOfChar_digit {c : Char} (h : c = '-' ∨ c.isDigit = true) : tagOfChar c = 3 := by
  rcases h with h | h
  · subst h; rfl
  · unfold tagOfChar
    have h1 : c ≠ 'n' := by rintro rfl; exact absurd h (by decide)
    have h2 : c ≠ 't' := by rintro rfl; exact absurd h (by decide)
    have h3 : c ≠ 'f' := by rintro rfl; exact absurd h (by decide)
    simp [h1, h2, h3, h]

theorem chars_head : ∀ v : JSValue, isJson v = true →
    ∃ c t, chars v = c :: t ∧ tagOfChar c = tag v
  | .undefined, h => by simp [isJson] at h
  | .null, _ => ⟨'n', _, rfl, rfl⟩
  | .bool true, _ => ⟨'t', _, rfl, rfl⟩
  | .bool false, _ => ⟨'f', _, rfl, rfl⟩
  | .num n, _ => by
    obtain ⟨c, t, ht, hc⟩ := intRepr_head n
    exact ⟨c, t, ht, tagOfChar_digit hc⟩
  | .str s, _ => by
    obtain ⟨t, ht⟩ := quote_head s
    exact ⟨'"', t, ht, rfl⟩
  | .arr _, _ => ⟨'[', _, rfl, rfl⟩
  | .obj _, _ => ⟨'{', _, rfl, rfl⟩

theorem tag_pos (v : JSValue) (h : isJson v = true) : tag v ≠ 0 := by
  cases v <;> simp_all [tag, isJson]

/-- A value's characters never start with the given character of tag `0`. -/
theorem chars_head_ne (v : JSValue) (hv : isJson v = true) (c : Char) (hc : tagOfChar c = 0)
    (t u : List Char) : chars v ++ t ≠ c :: u := by
  intro h
  obtain ⟨d, w, hw, hd⟩ := chars_head v hv
  rw [hw] at h
  simp only [List.cons_append, List.cons.injEq] at h
  rw [h.1, hc] at hd
  exact tag_pos v hv hd.symm

theorem chars_tag_eq (x y : JSValue) (hx : isJson x = true) (hy : isJson y = true)
    (r1 r2 : List Char) (h : chars x ++ r1 = chars y ++ r2) : tag y = tag x := by
  obtain ⟨c, t, ht, hc⟩ := chars_head y hy
  obtain ⟨d, u, hu, hd⟩ := chars_head x hx
  rw [ht, hu] at h
  simp only [List.cons_append, List.cons.injEq] at h
  rw [← hc, ← hd, h.1]

theorem noDigitHead_cons {c : Char} (h : c.isDigit = false) (t : List Char) :
    NoDigitHead (c :: t) := by
  intro d hd
  simp only [List.head?_cons, Option.some.injEq] at hd
  rw [← hd]; exact h

theorem noDigitHead_tail (l : List (List Char)) (e : Char) (he : e.isDigit = false)
    (r : List Char) : NoDigitHead (tailChars l ++ e :: r) := by
  cases l with
  | nil => exact noDigitHead_cons he r
  | cons a l =>
    simp only [tailChars, List.flatMap_cons, List.cons_append]
    exact noDigitHead_cons (by decide) _

mutual
theorem chars_inj : ∀ x : JSValue, isJson x = true → ∀ y : JSValue, isJson y = true →
    ∀ r1 r2 : List Char, chars x ++ r1 = chars y ++ r2 → NoDigitHead r1 → NoDigitHead r2 →
    x = y ∧ r1 = r2
  | .undefined, hx, _, _, _, _, _, _, _ => by simp [isJson] at hx
  | .null, hx, y, hy, r1, r2, h, _, _ => by
    have htag := chars_tag_eq _ y hx hy r1 r2 h
    cases y with
    | null => simpa [chars] using h
    | _ => simp [tag] at htag
  | .bool b, hx, y, hy, r1, r2, h, _, _ => by
    have htag := chars_tag_eq _ y hx hy r1 r2 h
    cases y with
    | bool b' => cases b <;> cases b' <;> simp_all [chars]
    | _ => simp [tag] at htag
  | .num n, hx, y, hy, r1, r2, h, g1, g2 => by
    have htag := chars_tag_eq _ y hx hy r1 r2 h
    cases y with
    | num m =>
      obtain ⟨e, er⟩ := intRepr_inj n m r1 r2 h g1 g2
      exact ⟨by rw [e], er⟩
    | _ => simp [tag] at htag
  | .str s, hx, y, hy, r1, r2, h, _, _ => by
    have htag := chars_tag_eq _ y hx hy r1 r2 h
    cases y with
    | str s' =>
      obtain ⟨e, er⟩ := quote_inj s s' r1 r2 h
      exact ⟨by rw [e], er⟩
    | _ => simp [tag] at htag
  | .arr xs, hx, y, hy, r1, r2, h, _, _ => by
    have htag := chars_tag_eq _ y hx hy r1 r2 h
    cases y with
    | arr ys =>
      simp only [chars, List.cons_append, List.append_assoc, List.singleton_append,
        List.cons.injEq, true_and] at h
      obtain ⟨e, er⟩ := items_inj xs (by simpa [isJson] using hx) ys
        (by simpa [isJson] using hy) r1 r2 h
      exact ⟨by rw [e], er⟩
    | _ => simp [tag] at htag
  | .obj ps, hx, y, hy, r1, r2, h, _, _ => by
    have htag := chars_tag_eq _ y hx hy r1 r2 h
    cases y with
    | obj qs =>
      simp only [chars, List.cons_append, List.append_assoc, List.singleton_append,
        List.cons.injEq, true_and] at h
      obtain ⟨e, er⟩ := props_inj ps (by simpa [isJson] using hx) qs
        (by simpa [isJson] using hy) r1 r2 h
      exact ⟨by rw [e], er⟩
    | _ => simp [tag] at htag
theorem items_inj : ∀ xs : List JSValue, isJsonItems xs = true →
    ∀ ys : List JSValue, isJsonItems ys = true → ∀ r1 r2 : List Char,
    joinSep (itemChars xs) ++ ']' :: r1 = joinSep (itemChars ys) ++ ']' :: r2 →
    xs = ys ∧ r1 = r2
  | [], _, ys, hy, r1, r2, h => by
    cases ys with
    | nil => simpa [itemChars, joinSep] using h
    | cons y ys =>
      exfalso
      simp only [isJsonItems, Bool.and_eq_true] at hy
      simp only [itemChars, joinSep, List.nil_append, List.append_assoc] at h
      exact chars_head_ne y hy.1 ']' rfl _ _ h.symm
  | x :: xs, hx, ys, hy, r1, r2, h => by
    simp only [isJsonItems, Bool.and_eq_true] at hx
    cases ys with
    | nil =>
      exfalso
      simp only [itemChars, joinSep, List.nil_append, List.append_assoc] at h
      exact chars_head_ne x hx.1 ']' rfl _ _ h
    | cons y ys =>
      simp only [isJsonItems, Bool.and_eq_true] at hy
      simp only [itemChars, joinSep, List.append_assoc] at h
      obtain ⟨e, er⟩ := chars_inj x hx.1 y hy.1 _ _ h
        (noDigitHead_tail _ ']' (by decide) r1) (noDigitHead_tail _ ']' (by decide) r2)
      obtain ⟨e', er'⟩ := itemsTail_inj xs hx.2 ys hy.2 r1 r2 er
      exact ⟨by rw [e, e'], er'⟩
theorem itemsTail_inj : ∀ xs : List JSValue, isJsonItems xs = true →
    ∀ ys : List JSValue, isJsonItems ys = true → ∀ r1 r2 : List Char,
    tailChars (itemChars xs) ++ ']' :: r1 = tailChars (itemChars ys) ++ ']' :: r2 →
    xs = ys ∧ r1 = r2
  | [], _, ys, _, r1, r2, h => by
    cases ys with
    | nil => simpa [itemChars, tailChars] using h
    | cons y ys => simp [itemChars, tailChars] at h
  | x :: xs, hx, ys, hy, r1, r2, h => by
    simp only [isJsonItems, Bool.and_eq_true] at hx
    cases ys with
    | nil => simp [itemChars, tailChars] at h
    | cons y ys =>
      simp only [isJsonItems, Bool.and_eq_true] at hy
      simp only [itemChars, tailChars, List.flatMap_cons, List.cons_append, List.append_assoc,
        List.cons.injEq, true_and] at h
      obtain ⟨e, er⟩ := chars_inj x hx.1 y hy.1 _ _ h
        (noDigitHead_tail _ ']' (by decide) r1) (noDigitHead_tail _ ']' (by decide) r2)
      obtain ⟨e', er'⟩ := itemsTail_inj xs hx.2 ys hy.2 r1 r2 er
      exact ⟨by rw [e, e'], er'⟩
theorem props_inj : ∀ ps : List (String × JSValue), isJsonProps ps = true →
    ∀ qs : List (String × JSValue), isJsonProps qs = true → ∀ r1 r2 : List Char,
    joinSep (propChars ps) ++ '}' :: r1 = joinSep (propChars qs) ++ '}' :: r2 →
    ps = qs ∧ r1 = r2
  | [], _, qs, _, r1, r2, h => by
    cases qs with
    | nil => simpa [propChars, joinSep] using h
    | cons q qs =>
      exfalso
      obtain ⟨k, v⟩ := q
      obtain ⟨t, ht⟩ := quote_head k
      simp [propChars, joinSep, ht] at h
  | (k, v) :: ps, hx, qs, hy, r1, r2, h => by
    simp only [isJsonProps, Bool.and_eq_true] at hx
    cases qs with
    | nil =>
      exfalso
      obtain ⟨t, ht⟩ := quote_head k
      simp [propChars, joinSep, ht] at h
    | cons q qs =>
      obtain ⟨k', v'⟩ := q
      simp only [isJsonProps, Bool.and_eq_true] at hy
      simp only [propChars, joinSep, List.append_assoc, List.cons_append] at h
      obtain ⟨ek, h2⟩ := quote_inj k k' _ _ h
      simp only [List.cons.injEq, true_and] at h2
      obtain ⟨e, er⟩ := chars_inj v hx.1 v' hy.1 _ _ h2
        (noDigitHead_tail _ '}' (by decide) r1) (noDigitHead_tail _ '}' (by decide) r2)
      obtain ⟨e', er'⟩ := propsTail_inj ps hx.2 qs hy.2 r1 r2 er
      exact ⟨by rw [ek, e, e'], er'⟩
theorem propsTail_inj : ∀ ps : List (String × JSValue), isJsonProps ps = true →
    ∀ qs : List (String × JSValue), isJsonProps qs = true → ∀ r1 r2 : List Char,
    tailChars (propChars ps) ++ '}' :: r1 = tailChars (propChars qs) ++ '}' :: r2 →
    ps = qs ∧ r1 = r2
  | [], _, qs, _, r1, r2, h => by
    cases qs with
    | nil => simpa [propChars, tailChars] using h
    | cons q qs =>
      obtain ⟨k, v⟩ := q
      simp [propChars, tailChars] at h
  | (k, v) :: ps, hx, qs, hy, r1, r2, h => by
    simp only [isJsonProps, Bool.and_eq_true] at hx
    cases qs with
    | nil => simp [propChars, tailChars] at h
    | cons q qs =>
      obtain ⟨k', v'⟩ := q
      simp only [isJsonProps, Bool.and_eq_true] at hy
      simp only [propChars, tailChars, List.flatMap_cons, List.cons_append, List.append_assoc,
        List.cons.injEq, true_and] at h
      obtain ⟨ek, h2⟩ := quote_inj k k' _ _ h
      simp only [List.cons.injEq, true_and] at h2
      obtain ⟨e, er⟩ := chars_inj v hx.1 v' hy.1 _ _ h2
        (noDigitHead_tail _ '}' (by decide) r1) (noDigitHead_tail _ '}' (by decide) r2)
      obtain ⟨e', er'⟩ := propsTail_inj ps hx.2 qs hy.2 r1 r2 er
      exact ⟨by rw [ek, e, e'], er'⟩
end

/-- On values that are `undefined` or JSON data, `JSON.stringify` is injective. -/
theorem stringify_inj (x y : JSValue) (hx : x = .undefined ∨ isJson x = true)
    (hy : y = .undefined ∨ isJson y = true) (h : stringify x = stringify y) : x = y := by
  rcases hx with hx | hx <;> rcases hy with hy | hy
  · rw [hx, hy]
  · rw [hx, stringify_chars y hy] at h
    simp [stringify] at h
  · rw [hy, stringify_chars x hx] at h
    simp [stringify] at h
  · rw [stringify_chars x hx, stringify_chars y hy] at h
    have hc : chars x = chars y := by
      have := Option.some.inj h
      exact congrArg String.data this
    have := chars_inj x hx y hy [] [] (by simpa using hc) (by intro c hc; simp at hc)
      (by intro c hc; simp at hc)
    exact this.1

/-! ## The claims about the diff engine -/

/-- C1. When `oldValues` and `newValues` are both present, `getChangeDetails`
returns the list obtained from the keys of `newValues`, in their order, by
keeping for each key whose serialized old and new values differ the entry
`{field: k, oldValue: oldValues[k], newValue: newValues[k]}`: the fields form
a sublist of the keys, every entry is such an entry of a differing key, every
differing key has exactly one entry, and a key that is not a key of
`newValues` is never a field. -/
theorem getChangeDetails_reports_changed_keys (log : JSValue)
    (ho : (oldValuesOf log).truthy = true) (hn : (newValuesOf log).truthy = true) :
    ∃ entries : List ChangeEntry,
      getChangeDetails log = .ok (some entries)
      ∧ entries = (newValuesOf log).ownKeys.filterMap
          (changeFor (oldValuesOf log) (newValuesOf log))
      ∧ (entries.map ChangeEntry.field).Sublist (newValuesOf log).ownKeys
      ∧ (∀ e ∈ entries, e.field ∈ (newValuesOf log).ownKeys
          ∧ stringify ((oldValuesOf log).getOwn e.field)
              ≠ stringify ((newValuesOf log).getOwn e.field)
          ∧ e.oldValue = (oldValuesOf log).getOwn e.field
          ∧ e.newValue = (newValuesOf log).getOwn e.field)
      ∧ ((newValuesOf log).ownKeys.Nodup → ∀ k ∈ (newValuesOf log).ownKeys,
          stringify ((oldValuesOf log).getOwn k) ≠ stringify ((newValuesOf log).getOwn k) →
          entries.filter (fun e => e.field == k)
            = [⟨k, (oldValuesOf log).getOwn k, (newValuesOf log).getOwn k⟩])
      ∧ (∀ k, k ∉ (newValuesOf log).ownKeys → ∀ e ∈ entries, e.field ≠ k) := by
  refine ⟨_, getChangeDetails_present log ho hn, rfl, map_field_filterMap_changeFor _ _ _,
    fun e he => mem_filterMap_changeFor he, ?_, ?_⟩
  · intro hnd k hk hne
    exact filter_field_of_mem _ _ _ k hnd hk hne
  · intro k hk e he hf
    exact hk (hf ▸ (mem_filterMap_changeFor he).1)

/-- C1 on the log `{action:"UPDATE", changes:{oldValues:{name:"A"},
newValues:{name:"B", age:5}}}`: the entries are `{name, "A", "B"}` and
`{age, undefined, 5}`. -/
theorem getChangeDetails_reports_changed_keys_witness :
    (oldValuesOf updateLog).truthy = true ∧ (newValuesOf updateLog).truthy = true
    ∧ getChangeDetails updateLog
        = .ok (some [⟨"name", .str "A", .str "B"⟩, ⟨"age", .undefined, .num 5⟩]) := by
  obtain ⟨entries, h1, h2, _⟩ := getChangeDetails_reports_changed_keys updateLog rfl rfl
  refine ⟨rfl, rfl, ?_⟩
  rw [h1, h2]
  rfl

/-- The line `details = ipDetails || log.ipDetails || null` evaluates without
throwing when the fetched details are present or the log is a value other than
`null` and `undefined`. -/
theorem presentedDetails_ok (log ipDetails : JSValue)
    (h : ipDetails.truthy = true ∨ log.nullish = false) :
    ∃ d, presentedDetails log ipDetails = .ok d := by
  cases ht : ipDetails.truthy
  · rcases h with h | h
    · rw [ht] at h; exact absurd h (by decide)
    · exact ⟨jsOr (log.getOwn "ipDetails") .null,
        by simp [presentedDetails, ht, getProp, h, bind, Except.bind, pure, Except.pure]⟩
  · exact ⟨ipDetails, by simp [presentedDetails, ht, pure, Except.pure]⟩

/-- With nothing fetched, the same line throws on a `null` or `undefined` log. -/
theorem presentedDetails_error_of_nullish (log ipDetails : JSValue)
    (ht : ipDetails.truthy = false) (hl : log.nullish = true) :
    presentedDetails log ipDetails = .error .typeError := by
  simp [presentedDetails, ht, getProp, hl, bind, Except.bind]

/-- What `getChangeDetails` returns when a part is missing, for every log: it
never throws, returns `null` when `changes` is absent and the empty list when
`changes` is present but `oldValues` or `newValues` is absent. -/
theorem getChangeDetails_of_missing (log : JSValue) :
    (∃ r, getChangeDetails log = .ok r)
    ∧ ((log.optChain "changes").truthy = false → getChangeDetails log = .ok none)
    ∧ ((log.optChain "changes").truthy = true →
        ((oldValuesOf log).truthy = false ∨ (newValuesOf log).truthy = false) →
        getChangeDetails log = .ok (some [])) := by
  refine ⟨getChangeDetails_total log, getChangeDetails_absent log, ?_⟩
  intro hc hmiss
  rw [oldValuesOf_eq hc, newValuesOf_eq hc] at hmiss
  exact getChangeDetails_partial log hc hmiss

/-- Whenever line 90 does not throw (details fetched, or a log that is neither
`null` nor `undefined`), a render with a missing part shows the
"No Changes Detected" panel on the changes tab. -/
theorem renderChangesTab_of_missing (log ipDetails : JSValue)
    (hr : ipDetails.truthy = true ∨ log.nullish = false)
    (hmiss : (log.optChain "changes").truthy = false
      ∨ (oldValuesOf log).truthy = false ∨ (newValuesOf log).truthy = false) :
    renderChangesTab log ipDetails "changes" = .ok (some .noChangesDetected) := by
  obtain ⟨d, hd⟩ := presentedDetails_ok log ipDetails hr
  have hg : getChangeDetails log = .ok none ∨ getChangeDetails log = .ok (some []) := by
    cases hc : (log.optChain "changes").truthy
    · exact Or.inl (getChangeDetails_absent log hc)
    · rcases hmiss with h | h
      · rw [hc] at h; exact absurd h (by decide)
      · exact Or.inr ((getChangeDetails_of_missing log).2.2 hc h)
  rcases hg with hg | hg <;>
    simp [renderChangesTab, hg, hd, changesTabContent, bind, Except.bind, pure, Except.pure]

/-- C2, at the failing input: the component is rendered with `log = null` (or
`undefined`) and nothing fetched. `changes` is absent and `getChangeDetails`
returns `null` without failing, as the claim says; but the render then throws
at `log.ipDetails` (line 90) before any tab content is built, so the changes
tab never reaches the "No Changes Detected" branch. A log record without
`changes` does reach it. -/
theorem render_throws_without_log :
    getChangeDetails .null = .ok none
    ∧ getChangeDetails .undefined = .ok none
    ∧ renderChangesTab .null IpState.initial.ipDetails "changes" = .error .typeError
    ∧ renderChangesTab .undefined IpState.initial.ipDetails "changes" = .error .typeError
    ∧ renderChangesTab loginLog IpState.initial.ipDetails "changes"
        = .ok (some .noChangesDetected)
    ∧ renderChangesTab createLog IpState.initial.ipDetails "changes"
        = .ok (some .noChangesDetected) :=
  ⟨rfl, rfl, rfl, rfl, rfl, rfl⟩

/-- C10, as stated, fails: the `profile` values of `reorderedLog` hold the same
keys with the same values and are deeply equal, yet their serializations
differ and `profile` is reported as changed. -/
theorem deepEqual_yet_reported :
    deepEqual ((oldValuesOf reorderedLog).getOwn "profile")
        ((newValuesOf reorderedLog).getOwn "profile") = true
    ∧ "profile" ∈ (newValuesOf reorderedLog).ownKeys
    ∧ getChangeDetails reorderedLog
        = .ok (some [⟨"profile", .obj [("x", .num 1), ("y", .num 2)],
            .obj [("y", .num 2), ("x", .num 1)]⟩]) := by
  refine ⟨rfl, by simp [newValuesOf, optChain, nullish, getOwn, lookupProp, ownKeys, reorderedLog], rfl⟩

/-- C10, amended. With `oldValues` and `newValues` present, a key of
`newValues` is reported exactly when the `JSON.stringify` results of its old
and new values differ. A key whose old and new values are the same value, keys
in the same order included, is never reported; and when both values are JSON
data or absent, the key is reported exactly when they are not that same value,
so the order of the keys of a nested object counts. -/
theorem reported_iff_serializations_differ (log : JSValue)
    (ho : (oldValuesOf log).truthy = true) (hn : (newValuesOf log).truthy = true) :
    ∃ entries : List ChangeEntry,
      getChangeDetails log = .ok (some entries)
      ∧ (∀ k ∈ (newValuesOf log).ownKeys,
          ((∃ e ∈ entries, e.field = k) ↔
            stringify ((oldValuesOf log).getOwn k) ≠ stringify ((newValuesOf log).getOwn k)))
      ∧ (∀ k ∈ (newValuesOf log).ownKeys,
          (oldValuesOf log).getOwn k = (newValuesOf log).getOwn k →
          ∀ e ∈ entries, e.field ≠ k)
      ∧ (∀ k ∈ (newValuesOf log).ownKeys,
          ((oldValuesOf log).getOwn k = .undefined
            ∨ isJson ((oldValuesOf log).getOwn k) = true) →
          ((newValuesOf log).getOwn k = .undefined
            ∨ isJson ((newValuesOf log).getOwn k) = true) →
          ((∃ e ∈ entries, e.field = k) ↔
            (oldValuesOf log).getOwn k ≠ (newValuesOf log).getOwn k)) := by
  have hiff : ∀ k ∈ (newValuesOf log).ownKeys,
      ((∃ e ∈ (newValuesOf log).ownKeys.filterMap
            (changeFor (oldValuesOf log) (newValuesOf log)), e.field = k) ↔
        stringify ((oldValuesOf log).getOwn k) ≠ stringify ((newValuesOf log).getOwn k)) := by
    intro k hk
    constructor
    · rintro ⟨e, he, rfl⟩
      exact (mem_filterMap_changeFor he).2.1
    · intro hne
      refine ⟨⟨k, (oldValuesOf log).getOwn k, (newValuesOf log).getOwn k⟩, ?_, rfl⟩
      exact List.mem_filterMap.2 ⟨k, hk, by simp [changeFor, hne]⟩
  refine ⟨_, getChangeDetails_present log ho hn, hiff, ?_, ?_⟩
  · intro k _ heq e he hf
    subst hf
    exact (mem_filterMap_changeFor he).2.1 (by rw [heq])
  · intro k hk hjo hjn
    rw [hiff k hk]
    constructor
    · intro hne heq
      exact hne (by rw [heq])
    · intro hne hs
      exact hne (stringify_inj _ _ hjo hjn hs)

/-- C10 amended, on `updateLog`: `age` is reported, its old value being absent
and its new value `5`; on `reorderedLog` the two `profile` values are JSON data
and not the same value, and `profile` is reported. -/
theorem reported_iff_serializations_differ_witness :
    (∃ entries : List ChangeEntry,
      getChangeDetails updateLog = .ok (some entries) ∧ (∃ e ∈ entries, e.field = "age"))
    ∧ (∃ entries : List ChangeEntry,
      getChangeDetails reorderedLog = .ok (some entries)
        ∧ (∃ e ∈ entries, e.field = "profile")) := by
  constructor
  · obtain ⟨entries, h1, h2, _⟩ := reported_iff_serializations_differ updateLog rfl rfl
    refine ⟨entries, h1, (h2 "age" ?_).2 ?_⟩
    · simp [newValuesOf, optChain, nullish, getOwn, lookupProp, ownKeys, updateLog]
    · simp [newValuesOf, oldValuesOf, optChain, nullish, getOwn, lookupProp, updateLog,
        stringify]
  · obtain ⟨entries, h1, _, _, h4⟩ := reported_iff_serializations_differ reorderedLog rfl rfl
    refine ⟨entries, h1, (h4 "profile" ?_ (Or.inr rfl) (Or.inr rfl)).2 ?_⟩
    · simp [newValuesOf, optChain, nullish, getOwn, lookupProp, ownKeys, reorderedLog]
    · simp [newValuesOf, oldValuesOf, optChain, nullish, getOwn, lookupProp, reorderedLog]

/-! ## The request list -/

theorem clearMounted_length (fs : List Fetch) (i : Nat) :
    (clearMounted fs i).length = fs.length := by
  induction fs generalizing i with
  | nil => rfl
  | cons f fs ih => cases i <;> simp [clearMounted, ih]

theorem markSettled_length (fs : List Fetch) (i : Nat) :
    (markSettled fs i).length = fs.length := by
  induction fs generalizing i with
  | nil => rfl
  | cons f fs ih => cases i <;> simp [clearMounted, markSettled, ih]

theorem clearMounted_get (fs : List Fetch) (i j : Nat) :
    (clearMounted fs i)[j]? =
      (fs[j]?).map (fun f => if j = i then { f with mounted := false } else f) := by
  induction fs generalizing i j with
  | nil => simp [clearMounted]
  | cons f fs ih =>
    cases i with
    | zero =>
      cases j with
      | zero => simp [clearMounted]
      | succ j => simp [clearMounted]
    | succ i =>
      cases j with
      | zero => simp [clearMounted]
      | succ j => simp [clearMounted, ih]

theorem markSettled_get (fs : List Fetch) (i j : Nat) :
    (markSettled fs i)[j]? =
      (fs[j]?).map (fun f => if j = i then { f with settled := true } else f) := by
  induction fs generalizing i j with
  | nil => simp [markSettled]
  | cons f fs ih =>
    cases i with
    | zero =>
      cases j with
      | zero => simp [markSettled]
      | succ j => simp [markSettled]
    | succ i =>
      cases j with
      | zero => simp [markSettled]
      | succ j => simp [markSettled, ih]

theorem clearMounted_map_ip (fs : List Fetch) (i : Nat) :
    (clearMounted fs i).map Fetch.ip = fs.map Fetch.ip := by
  induction fs generalizing i with
  | nil => rfl
  | cons f fs ih => cases i <;> simp [clearMounted, ih]

theorem markSettled_map_ip (fs : List Fetch) (i : Nat) :
    (markSettled fs i).map Fetch.ip = fs.map Fetch.ip := by
  induction fs generalizing i with
  | nil => rfl
  | cons f fs ih => cases i <;> simp [markSettled, ih]

/-! ## Settlement of a stale request -/

theorem fetchIpSettle_stale (o : Outcome) (s : IpState) : fetchIpSettle false o s = s := by
  cases o <;> simp [fetchIpSettle]

theorem settle_state_of_unmounted (m : Modal) (i : Nat) (f : Fetch) (o : Outcome)
    (hf : m.fetches[i]? = some f) (hm : f.mounted = false) :
    (settle i o m).state = m.state := by
  unfold settle
  simp only [List.get?_eq_getElem?, hf]
  split
  · rfl
  · simp [hm, fetchIpSettle_stale]

/-! ## The invariant of a mounted instance -/

theorem inv_initial : Inv Modal.initial :=
  ⟨by simp [Modal.initial], by simp [Modal.initial], by simp [Modal.initial]⟩

theorem runCleanup_unmounted {m : Modal} (h : Inv m) (i : Nat) (f : Fetch)
    (hf : (runCleanup m).fetches[i]? = some f) : f.mounted = false := by
  unfold runCleanup at hf
  cases hc : m.cleanup with
  | none =>
    simp only [hc] at hf
    by_contra hm
    have := h.only_cleanup i f hf (by simpa using hm)
    simp [hc] at this
  | some c =>
    simp only [hc, clearMounted_get] at hf
    cases hg : m.fetches[i]? with
    | none => simp [hg] at hf
    | some g =>
      simp only [hg, Option.map_some', Option.some.injEq] at hf
      by_cases hic : i = c
      · simp only [hic, if_true] at hf
        rw [← hf]
      · simp only [hic, if_false] at hf
        subst hf
        by_contra hm
        have := h.only_cleanup i g hg (by simpa using hm)
        rw [hc] at this
        exact hic (Option.some.inj this).symm

theorem runCleanup_ip_truthy {m : Modal} (h : Inv m) :
    ∀ f ∈ (runCleanup m).fetches, f.ip.truthy = true := by
  intro f hf
  have hmap : (runCleanup m).fetches.map Fetch.ip = m.fetches.map Fetch.ip := by
    unfold runCleanup
    cases m.cleanup <;> simp [clearMounted_map_ip]
  have : f.ip ∈ (runCleanup m).fetches.map Fetch.ip := List.mem_map_of_mem _ hf
  rw [hmap] at this
  obtain ⟨g, hg, hgf⟩ := List.mem_map.1 this
  rw [← hgf]
  exact h.ip_truthy g hg

theorem runCleanup_length (m : Modal) : (runCleanup m).fetches.length = m.fetches.length := by
  unfold runCleanup
  cases m.cleanup <;> simp [clearMounted_length]

theorem runCleanup_state (m : Modal) : (runCleanup m).state = m.state := by
  unfold runCleanup
  cases m.cleanup <;> rfl

theorem runCleanup_cleanup (m : Modal) : (runCleanup m).cleanup = none := by
  unfold runCleanup
  cases hc : m.cleanup <;> simp [hc]

theorem inv_ipEffect {m : Modal} (log : JSValue)
    (hall : ∀ (i : Nat) (f : Fetch), m.fetches[i]? = some f → f.mounted = false)
    (hip : ∀ f ∈ m.fetches, f.ip.truthy = true) : Inv (ipEffect log m) := by
  unfold ipEffect
  cases ht : (log.optChain "ipAddress").truthy
  · simp only [Bool.not_false, if_true]
    refine ⟨?_, ?_, hip⟩
    · intro i f hf hm
      simp [hall i f hf] at hm
    · intro i f hf hm
      simp [hall i f hf] at hm
  · simp only [Bool.not_true, Bool.false_eq_true, if_false]
    have hidx : ∀ (i : Nat) (f : Fetch),
        (m.fetches ++ [({ ip := log.getOwn "ipAddress", mounted := true, settled := false } : Fetch)])[i]?
          = some f → f.mounted = true → i = m.fetches.length := by
      intro i f hf hm
      by_contra hne
      rcases Nat.lt_or_gt_of_ne hne with hlt | hgt
      · rw [List.getElem?_append_left hlt] at hf
        simp [hall i f hf] at hm
      · rw [List.getElem?_eq_none (by simp; omega)] at hf
        simp at hf
    refine ⟨?_, ?_, ?_⟩
    · intro i f hf hm
      simp only at hf ⊢
      rw [hidx i f hf hm]
    · intro i f _ _ _
      simp [fetchIpStart]
    · intro f hf
      rcases List.mem_append.1 hf with h | h
      · exact hip f h
      · simp only [List.mem_singleton] at h
        subst h
        have hl : log.nullish = false := truthy_of_optChain_truthy ht
        simpa [optChain, hl] using ht

theorem inv_render {m : Modal} (h : Inv m) (log : JSValue) : Inv (render log m) := by
  unfold render
  split
  · exact h
  · split
    · have h' : Inv { m with deps := some (log.optChain "ipAddress") } :=
        ⟨h.only_cleanup, h.live_state, h.ip_truthy⟩
      exact inv_ipEffect log (fun i f hf => runCleanup_unmounted h' i f hf)
        (runCleanup_ip_truthy h')
    · exact h

theorem inv_unmount {m : Modal} (h : Inv m) : Inv (unmount m) := by
  unfold unmount
  refine ⟨?_, ?_, runCleanup_ip_truthy h⟩
  · intro i f hf hm
    simp [runCleanup_unmounted h i f hf] at hm
  · intro i f hf hm
    simp [runCleanup_unmounted h i f hf] at hm

theorem inv_settle {m : Modal} (h : Inv m) (i : Nat) (o : Outcome) : Inv (settle i o m) := by
  unfold settle
  simp only [List.get?_eq_getElem?]
  cases hg : m.fetches[i]? with
  | none => exact h
  | some g =>
    simp only
    split
    · exact h
    · rename_i hgs
      have hback : ∀ (j : Nat) (f : Fetch), (markSettled m.fetches i)[j]? = some f →
          ∃ f0, m.fetches[j]? = some f0 ∧ f0.mounted = f.mounted ∧ f0.ip = f.ip
            ∧ (f.settled = false → j ≠ i ∧ f0.settled = false) := by
        intro j f hf
        rw [markSettled_get] at hf
        cases hj : m.fetches[j]? with
        | none => simp [hj] at hf
        | some f0 =>
          simp only [hj, Option.map_some', Option.some.injEq] at hf
          refine ⟨f0, rfl, ?_⟩
          by_cases hji : j = i
          · simp only [hji, if_true] at hf
            subst hf
            simp
          · simp only [hji, if_false] at hf
            subst hf
            simp [hji]
      refine ⟨?_, ?_, ?_⟩
      · intro j f hf hm
        obtain ⟨f0, hf0, hm0, _, _⟩ := hback j f hf
        exact h.only_cleanup j f0 hf0 (hm0 ▸ hm)
      · intro j f hf hm hs
        obtain ⟨f0, hf0, hm0, _, hs0⟩ := hback j f hf
        obtain ⟨hji, hs0⟩ := hs0 hs
        have hc := h.only_cleanup j f0 hf0 (hm0 ▸ hm)
        have hgm : g.mounted = false := by
          by_contra hgm
          have hc' := h.only_cleanup i g hg (by simpa using hgm)
          rw [hc] at hc'
          exact hji (Option.some.inj hc')
        simp only [hgm, fetchIpSettle_stale]
        exact h.live_state j f0 hf0 (hm0 ▸ hm) hs0
      · intro f hf
        obtain ⟨j, hj⟩ := List.getElem?_of_mem hf
        obtain ⟨f0, hf0, _, hip, _⟩ := hback j f hj
        rw [← hip]
        exact h.ip_truthy f0 (List.getElem?_mem hf0)

theorem inv_step {m : Modal} (h : Inv m) (e : Event) : Inv (step m e) := by
  cases e with
  | render log => exact inv_render h log
  | settle i o => exact inv_settle h i o
  | unmount => exact inv_unmount h

theorem inv_run {m : Modal} (h : Inv m) (es : List Event) : Inv (run m es) := by
  induction es generalizing m with
  | nil => exact h
  | cons e es ih => exact ih (inv_step h e)

theorem inv_reachable (es : List Event) : Inv (run Modal.initial es) :=
  inv_run inv_initial es

/-! ## Stale requests stay stale -/

theorem render_of_changed (log : JSValue) (m : Modal) (hu : m.unmounted = false)
    (hd : depsChanged log m = true) :
    render log m
      = ipEffect log (runCleanup { m with deps := some (log.optChain "ipAddress") }) := by
  unfold render
  rw [if_neg (by simp [hu]), if_pos hd]

theorem runCleanup_stale (m : Modal) (i : Nat) (f : Fetch) (hf : m.fetches[i]? = some f)
    (hm : f.mounted = false) :
    ∃ f', (runCleanup m).fetches[i]? = some f' ∧ f'.mounted = false := by
  unfold runCleanup
  cases hc : m.cleanup with
  | none => exact ⟨f, hf, hm⟩
  | some c =>
    simp only [clearMounted_get, hf, Option.map_some']
    by_cases hic : i = c
    · exact ⟨{ f with mounted := false }, by simp [hic], rfl⟩
    · exact ⟨f, by simp [hic], hm⟩

theorem ipEffect_stale (log : JSValue) (m : Modal) (i : Nat) (f : Fetch)
    (hf : m.fetches[i]? = some f) (hm : f.mounted = false) :
    ∃ f', (ipEffect log m).fetches[i]? = some f' ∧ f'.mounted = false := by
  have hlt : i < m.fetches.length := by
    by_contra hge
    rw [List.getElem?_eq_none (by omega)] at hf
    simp at hf
  unfold ipEffect
  split
  · exact ⟨f, hf, hm⟩
  · exact ⟨f, by simp only [List.getElem?_append_left hlt, hf], hm⟩

theorem step_stale (m : Modal) (e : Event) (i : Nat) (f : Fetch)
    (hf : m.fetches[i]? = some f) (hm : f.mounted = false) :
    ∃ f', (step m e).fetches[i]? = some f' ∧ f'.mounted = false := by
  cases e with
  | render log =>
    simp only [step, render]
    split
    · exact ⟨f, hf, hm⟩
    · split
      · obtain ⟨f1, hf1, hm1⟩ :=
          runCleanup_stale { m with deps := some (log.optChain "ipAddress") } i f hf hm
        exact ipEffect_stale log _ i f1 hf1 hm1
      · exact ⟨f, hf, hm⟩
  | settle j o =>
    simp only [step, settle, List.get?_eq_getElem?]
    cases hg : m.fetches[j]? with
    | none => exact ⟨f, hf, hm⟩
    | some g =>
      simp only
      split
      · exact ⟨f, hf, hm⟩
      · simp only [markSettled_get, hf, Option.map_some']
        by_cases hij : i = j
        · exact ⟨{ f with settled := true }, by simp [hij], hm⟩
        · exact ⟨f, by simp [hij], hm⟩
  | unmount =>
    simp only [step, unmount]
    exact runCleanup_stale m i f hf hm

theorem run_stale (m : Modal) (es : List Event) (i : Nat) (f : Fetch)
    (hf : m.fetches[i]? = some f) (hm : f.mounted = false) :
    ∃ f', (run m es).fetches[i]? = some f' ∧ f'.mounted = false := by
  induction es generalizing m f with
  | nil => exact ⟨f, hf, hm⟩
  | cons e es ih =>
    obtain ⟨f1, hf1, hm1⟩ := step_stale m e i f hf hm
    exact ih (step m e) f1 hf1 hm1

theorem runCleanup_all_stale {m : Modal} (h : Inv m) (i : Nat) (hi : i < m.fetches.length) :
    ∃ f, (runCleanup m).fetches[i]? = some f ∧ f.mounted = false := by
  have hi' : i < (runCleanup m).fetches.length := by rw [runCleanup_length]; exact hi
  exact ⟨_, List.getElem?_eq_getElem hi', runCleanup_unmounted h i _ (List.getElem?_eq_getElem hi')⟩

theorem render_changed_all_stale {m : Modal} (h : Inv m) (log : JSValue)
    (hu : m.unmounted = false) (hd : depsChanged log m = true) (i : Nat)
    (hi : i < m.fetches.length) :
    ∃ f, (render log m).fetches[i]? = some f ∧ f.mounted = false := by
  have h' : Inv { m with deps := some (log.optChain "ipAddress") } :=
    ⟨h.only_cleanup, h.live_state, h.ip_truthy⟩
  obtain ⟨f1, hf1, hm1⟩ := runCleanup_all_stale h' i hi
  rw [render_of_changed log m hu hd]
  exact ipEffect_stale log _ i f1 hf1 hm1

theorem unmount_all_stale {m : Modal} (h : Inv m) (i : Nat) (hi : i < m.fetches.length) :
    ∃ f, (unmount m).fetches[i]? = some f ∧ f.mounted = false := by
  simp only [unmount]
  exact runCleanup_all_stale h i hi

/-! ## Requests issued -/

theorem issued_settle (i : Nat) (o : Outcome) (m : Modal) : issued (settle i o m) = issued m := by
  unfold settle issued
  simp only [List.get?_eq_getElem?]
  cases hg : m.fetches[i]? with
  | none => rfl
  | some g =>
    simp only
    split
    · rfl
    · simp [markSettled_map_ip]

theorem issued_runCleanup (m : Modal) : issued (runCleanup m) = issued m := by
  unfold runCleanup issued
  cases m.cleanup <;> simp [clearMounted_map_ip]

theorem issued_render_unchanged (log : JSValue) (m : Modal) (hd : depsChanged log m = false) :
    issued (render log m) = issued m := by
  unfold render
  split
  · rfl
  · simp [hd]

theorem issued_render_changed (log : JSValue) (m : Modal) (hu : m.unmounted = false)
    (hd : depsChanged log m = true) :
    issued (render log m) = issued m ++
      (if (log.optChain "ipAddress").truthy then [log.optChain "ipAddress"] else []) := by
  rw [render_of_changed log m hu hd]
  have hrc := issued_runCleanup { m with deps := some (log.optChain "ipAddress") }
  unfold ipEffect
  cases ht : (log.optChain "ipAddress").truthy
  · simp only [Bool.not_false, if_true, Bool.false_eq_true, if_false, List.append_nil]
    exact hrc
  · have hl : log.nullish = false := truthy_of_optChain_truthy ht
    have e : log.getOwn "ipAddress" = log.optChain "ipAddress" := by simp [optChain, hl]
    simp only [Bool.not_true, Bool.false_eq_true, if_false, if_true]
    simp only [issued] at hrc ⊢
    rw [List.map_append, hrc, e]
    rfl

theorem render_unmounted (log : JSValue) (m : Modal) : (render log m).unmounted = m.unmounted := by
  unfold render
  split
  · rfl
  · split
    · unfold ipEffect runCleanup
      cases m.cleanup <;> (simp only; split <;> rfl)
    · rfl

theorem render_deps (log : JSValue) (m : Modal) (hu : m.unmounted = false)
    (hd : depsChanged log m = true) : (render log m).deps = some (log.optChain "ipAddress") := by
  rw [render_of_changed log m hu hd]
  unfold ipEffect runCleanup
  cases m.cleanup <;> (simp only; split <;> rfl)

theorem settle_unmounted (i : Nat) (o : Outcome) (m : Modal) :
    (settle i o m).unmounted = m.unmounted ∧ (settle i o m).deps = m.deps := by
  unfold settle
  simp only [List.get?_eq_getElem?]
  cases hg : m.fetches[i]? with
  | none => exact ⟨rfl, rfl⟩
  | some g =>
    simp only
    split <;> exact ⟨rfl, rfl⟩

theorem issued_run_unmounted (m : Modal) (hu : m.unmounted = true) (es : List Event) :
    issued (run m es) = issued m := by
  induction es generalizing m with
  | nil => rfl
  | cons e es ih =>
    cases e with
    | render log =>
      have hr : render log m = m := by simp [render, hu]
      simp only [run, List.foldl_cons, step, hr]
      exact ih m hu
    | settle i o =>
      have := ih (settle i o m) (by rw [(settle_unmounted i o m).1]; exact hu)
      simp only [run, List.foldl_cons, step] at this ⊢
      rw [this, issued_settle]
    | unmount =>
      have := ih (unmount m) rfl
      simp only [run, List.foldl_cons, step] at this ⊢
      rw [this]
      simp only [unmount, issued]
      exact issued_runCleanup m

theorem issued_run (m : Modal) (hu : m.unmounted = false) (es : List Event) :
    issued (run m es) = issued m ++ requestsFor m.deps es := by
  induction es generalizing m with
  | nil => simp [run, requestsFor]
  | cons e es ih =>
    cases e with
    | render log =>
      have hru : (render log m).unmounted = false := by rw [render_unmounted]; exact hu
      have := ih (render log m) hru
      simp only [run, List.foldl_cons, step] at this ⊢
      rw [this]
      cases hd : depsChanged log m
      · have hr : render log m = m := by simp [render, hd]
        have hc : (match m.deps with
            | some d => !objectIs d (log.optChain "ipAddress")
            | none => true) = false := hd
        simp only [requestsFor, hc, hr, Bool.false_eq_true, if_false]
      · have hc : (match m.deps with
            | some d => !objectIs d (log.optChain "ipAddress")
            | none => true) = true := hd
        rw [issued_render_changed log m hu hd, render_deps log m hu hd]
        simp only [requestsFor, hc, if_true, List.append_assoc]
    | settle i o =>
      have := ih (settle i o m) (by rw [(settle_unmounted i o m).1]; exact hu)
      simp only [run, List.foldl_cons, step] at this ⊢
      rw [this, issued_settle, (settle_unmounted i o m).2]
      simp [requestsFor]
    | unmount =>
      have := issued_run_unmounted (unmount m) rfl es
      simp only [run, List.foldl_cons, step] at this ⊢
      rw [this]
      simp only [unmount, issued, requestsFor, List.append_nil]
      exact issued_runCleanup m

/-! ## The claim about the tab auto-switch -/

/-- C3. One run of the auto-switch effect sets the tab to `overview` when the
tab is `changes` and the diff is absent or empty, and leaves it unchanged
otherwise: any tab other than `changes` (so `overview`) stays, `changes` stays
when the diff has an entry (so the initial tab survives), and selecting
`changes` by hand while the diff has no entry is followed by `overview`. -/
theorem autoSwitchEffect_rule (log : JSValue) (activeTab : String) :
    ∃ changes : Option (List ChangeEntry),
      getChangeDetails log = .ok changes
      ∧ (activeTab = "changes" → (changes = none ∨ changes = some []) →
          autoSwitchEffect log activeTab = .ok "overview")
      ∧ (activeTab ≠ "changes" → autoSwitchEffect log activeTab = .ok activeTab)
      ∧ autoSwitchEffect log "overview" = .ok "overview"
      ∧ ((∃ e es, changes = some (e :: es)) → autoSwitchEffect log activeTab = .ok activeTab)
      ∧ ((∃ e es, changes = some (e :: es)) → autoSwitchEffect log initialTab = .ok "changes")
      ∧ ((changes = none ∨ changes = some []) →
          autoSwitchEffect log (selectTab "changes" activeTab) = .ok "overview") := by
  obtain ⟨changes, hc⟩ := getChangeDetails_total log
  have hrun : ∀ tab : String, autoSwitchEffect log tab
      = .ok (if (tab = "changes" && noChanges changes) = true then "overview" else tab) := by
    intro tab
    unfold autoSwitchEffect
    rw [hc]
    simp only [bind, Except.bind, pure, Except.pure]
    split <;> rfl
  have hempty : (changes = none ∨ changes = some []) → noChanges changes = true := by
    rintro (h | h) <;> simp [h, noChanges]
  have hfull : (∃ e es, changes = some (e :: es)) → noChanges changes = false := by
    rintro ⟨e, es, h⟩
    simp [h, noChanges]
  refine ⟨changes, hc, ?_, ?_, ?_, ?_, ?_, ?_⟩
  · intro ht he
    rw [hrun, ht, hempty he]
    rfl
  · intro ht
    rw [hrun]
    simp [ht]
  · rw [hrun]
    rfl
  · intro hf
    rw [hrun, hfull hf]
    simp
  · intro hf
    rw [hrun, hfull hf]
    rfl
  · intro he
    rw [hrun, hempty he]
    rfl

/-- C3 on concrete logs: with no `changes` the tab `changes` becomes
`overview`; with two changed fields the initial tab `changes` stays. -/
theorem autoSwitchEffect_rule_witness :
    autoSwitchEffect loginLog "changes" = .ok "overview"
    ∧ autoSwitchEffect updateLog initialTab = .ok "changes" := by
  constructor
  · obtain ⟨changes, hc, h1, _⟩ := autoSwitchEffect_rule loginLog "changes"
    have : changes = none := by
      have h0 : getChangeDetails loginLog = .ok none := rfl
      rw [h0] at hc
      exact (Except.ok.inj hc).symm
    exact h1 rfl (Or.inl this)
  · obtain ⟨changes, hc, _, _, _, _, h5, _⟩ := autoSwitchEffect_rule updateLog "changes"
    have h0 : getChangeDetails updateLog
        = .ok (some [⟨"name", .str "A", .str "B"⟩, ⟨"age", .undefined, .num 5⟩]) := rfl
    rw [h0] at hc
    exact h5 ⟨_, _, (Except.ok.inj hc).symm⟩

/-! ## The claims about the IP enrichment -/

/-- C4, at the failing input: a request for `"1.1.1.1"` is in flight when a
render arrives with an empty `ipAddress`. The effect issues no further request
and clears the details and the error, but the loading flag stays set, also
after the stale request has settled. -/
theorem reset_keeps_loading_flag :
    (run Modal.initial [.render (logWithIp "1.1.1.1")]).state
      = { ipDetails := .null, ipLoading := true, ipError := .null }
    ∧ (run Modal.initial [.render (logWithIp "1.1.1.1"), .render (logWithIp "")]).state
      = { ipDetails := .null, ipLoading := true, ipError := .null }
    ∧ issued (run Modal.initial [.render (logWithIp "1.1.1.1"), .render (logWithIp "")])
      = [.str "1.1.1.1"]
    ∧ (run Modal.initial [.render (logWithIp "1.1.1.1"), .render (logWithIp ""),
        .settle 0 (.resolved successResponse)]).state.ipLoading = true
    ∧ (run Modal.initial [.render (logWithIp "1.1.1.1"), .render loginLog,
        .settle 0 (.rejected timeoutFailure)]).state.ipLoading = true :=
  ⟨rfl, rfl, rfl, rfl, rfl⟩

/-- C5. A settlement that finds its liveness flag cleared changes nothing,
whatever the outcome. Every request issued before a render with a changed
address, or before the unmount, has its flag cleared from then on: settling it
at any later point leaves the details, the error and the loading flag as they
are. -/
theorem stale_settlement_ignored :
    (∀ (o : Outcome) (s : IpState), fetchIpSettle false o s = s)
    ∧ (∀ (m : Modal) (i : Nat) (f : Fetch) (o : Outcome),
        m.fetches[i]? = some f → f.mounted = false → (settle i o m).state = m.state)
    ∧ (∀ (before later : List Event) (log : JSValue) (i : Nat) (o : Outcome),
        (run Modal.initial before).unmounted = false →
        depsChanged log (run Modal.initial before) = true →
        i < (run Modal.initial before).fetches.length →
        (settle i o (run (render log (run Modal.initial before)) later)).state
          = (run (render log (run Modal.initial before)) later).state)
    ∧ (∀ (before later : List Event) (i : Nat) (o : Outcome),
        i < (run Modal.initial before).fetches.length →
        (settle i o (run (unmount (run Modal.initial before)) later)).state
          = (run (unmount (run Modal.initial before)) later).state) := by
  refine ⟨fetchIpSettle_stale, ?_, ?_, ?_⟩
  · intro m i f o hf hm
    exact settle_state_of_unmounted m i f o hf hm
  · intro before later log i o hu hd hi
    obtain ⟨f1, hf1, hm1⟩ := render_changed_all_stale (inv_reachable before) log hu hd i hi
    obtain ⟨f2, hf2, hm2⟩ := run_stale _ later i f1 hf1 hm1
    exact settle_state_of_unmounted _ i f2 o hf2 hm2
  · intro before later i o hi
    obtain ⟨f1, hf1, hm1⟩ := unmount_all_stale (inv_reachable before) i hi
    obtain ⟨f2, hf2, hm2⟩ := run_stale _ later i f1 hf1 hm1
    exact settle_state_of_unmounted _ i f2 o hf2 hm2

/-- C5 on the address change from `"1.1.1.1"` to `"2.2.2.2"`: the first
request settling with a success body leaves the state of the second fetch
(loading, no details, no error) untouched. -/
theorem stale_settlement_ignored_witness :
    (settle 0 (.resolved successResponse)
        (run (render (logWithIp "2.2.2.2") (run Modal.initial [.render (logWithIp "1.1.1.1")]))
          [])).state
      = { ipDetails := .null, ipLoading := true, ipError := .null } := by
  rw [stale_settlement_ignored.2.2.1 [.render (logWithIp "1.1.1.1")] [] (logWithIp "2.2.2.2") 0
    (.resolved successResponse) rfl rfl (by decide)]
  rfl

/-- C6. A request that is still live when it settles with a body of status
`"success"` was issued for a non-empty address, and after the settlement the
fetched details are the returned body, the error is `null` and the loading
flag is `false`. -/
theorem live_success_settlement (es : List Event) (i : Nat) (f : Fetch) (res : JSValue)
    (hf : (run Modal.initial es).fetches[i]? = some f)
    (hm : f.mounted = true) (hs : f.settled = false)
    (hst : (res.optChain "data").optChain "status" = .str "success") :
    f.ip.truthy = true
    ∧ (settle i (.resolved res) (run Modal.initial es)).state
        = { ipDetails := res.getOwn "data", ipLoading := false, ipError := .null } := by
  have hinv := inv_reachable es
  refine ⟨hinv.ip_truthy f (List.getElem?_mem hf), ?_⟩
  obtain ⟨he, _⟩ := hinv.live_state i f hf hm hs
  unfold settle
  simp only [List.get?_eq_getElem?, hf, hs, Bool.false_eq_true, if_false, fetchIpSettle, hm,
    Bool.not_true, hst, strictEqStr, beq_self_eq_true, if_true]
  rw [← he]

/-- C6 on `ipAddress = "8.8.8.8"` and the body `{status:"success",
country:"US", city:"Mountain View"}`: the presented country is `"US"`, the
city `"Mountain View"`, loading is `false` and the error is `null`. -/
theorem live_success_settlement_witness :
    ∃ s : IpState,
      (settle 0 (.resolved successResponse)
        (run Modal.initial [.render (logWithIp "8.8.8.8")])).state = s
      ∧ s.ipLoading = false ∧ s.ipError = .null
      ∧ (presentedDetails (logWithIp "8.8.8.8") s.ipDetails).map (fun d => d.optChain "country")
          = .ok (.str "US")
      ∧ (presentedDetails (logWithIp "8.8.8.8") s.ipDetails).map (fun d => d.optChain "city")
          = .ok (.str "Mountain View") := by
  have h := (live_success_settlement [.render (logWithIp "8.8.8.8")] 0
    ⟨.str "8.8.8.8", true, false⟩ successResponse rfl rfl rfl rfl).2
  exact ⟨_, h, rfl, rfl, rfl, rfl⟩

/-- C7. A live request that settles otherwise than with status `"success"`
leaves the details `null`, the loading flag `false` and a set error: for a
response of another status the service's message, or `"Failed to fetch IP
info"` when that is missing or empty; for a thrown failure its message, or
`"Network error"` when that is missing or empty. -/
theorem live_failure_settlement (m : Modal) (i : Nat) (f : Fetch)
    (hf : m.fetches[i]? = some f) (hm : f.mounted = true) (hs : f.settled = false) :
    (∀ res : JSValue, (res.optChain "data").optChain "status" ≠ .str "success" →
      (settle i (.resolved res) m).state
        = { ipDetails := .null, ipLoading := false
            ipError :=
              if ((res.optChain "data").optChain "message").truthy
              then (res.optChain "data").optChain "message"
              else .str "Failed to fetch IP info" }
      ∧ (settle i (.resolved res) m).state.ipError.truthy = true)
    ∧ (∀ err : JSValue, err.nullish = false →
      (settle i (.rejected err) m).state
        = { ipDetails := .null, ipLoading := false
            ipError :=
              if (err.getOwn "message").truthy then err.getOwn "message"
              else .str "Network error" }
      ∧ (settle i (.rejected err) m).state.ipError.truthy = true) := by
  constructor
  · intro res hst
    have hne : strictEqStr ((res.optChain "data").optChain "status") "success" = false := by
      cases hv : (res.optChain "data").optChain "status" <;> simp [strictEqStr]
      rename_i s
      intro hsuc
      exact hst (by rw [hv, hsuc])
    have hstate : (settle i (.resolved res) m).state
        = { ipDetails := .null, ipLoading := false
            ipError :=
              if ((res.optChain "data").optChain "message").truthy
              then (res.optChain "data").optChain "message"
              else .str "Failed to fetch IP info" } := by
      unfold settle
      simp only [List.get?_eq_getElem?, hf, hs, Bool.false_eq_true, if_false, fetchIpSettle, hm,
        Bool.not_true, hne, jsOr]
    refine ⟨hstate, ?_⟩
    rw [hstate]
    simp only
    split
    · assumption
    · rfl
  · intro err herr
    have hstate : (settle i (.rejected err) m).state
        = { ipDetails := .null, ipLoading := false
            ipError :=
              if (err.getOwn "message").truthy then err.getOwn "message"
              else .str "Network error" } := by
      unfold settle
      simp only [List.get?_eq_getElem?, hf, hs, Bool.false_eq_true, if_false, fetchIpSettle, hm,
        Bool.not_true, getProp, herr, jsOr]
    refine ⟨hstate, ?_⟩
    rw [hstate]
    simp only
    split
    · assumption
    · rfl

/-- C7 on `ipAddress = "invalid"` and the body `{status:"fail",
message:"invalid query"}`: the error is `"invalid query"` and no details are
presented; a timeout stores the failure's message. -/
theorem live_failure_settlement_witness :
    (settle 0 (.resolved failResponse) (run Modal.initial [.render (logWithIp "invalid")])).state
      = { ipDetails := .null, ipLoading := false, ipError := .str "invalid query" }
    ∧ (settle 0 (.rejected timeoutFailure)
        (run Modal.initial [.render (logWithIp "invalid")])).state
      = { ipDetails := .null, ipLoading := false, ipError := .str "timeout of 8000ms exceeded" } := by
  have h := live_failure_settlement (run Modal.initial [.render (logWithIp "invalid")]) 0
    ⟨.str "invalid", true, false⟩ rfl rfl rfl
  constructor
  · rw [(h.1 failResponse (by simp [failResponse, optChain, nullish, getOwn, lookupProp])).1]
    rfl
  · rw [(h.2 timeoutFailure rfl).1]
    rfl

/-- The precedence of line 90 where it evaluates: fetched details that are
present are the value whatever the log; on a log that is neither `null` nor
`undefined` the value is the fetched details when present, otherwise
`log.ipDetails` when present, otherwise `null`. -/
theorem presentedDetails_of_record (log : JSValue) (s : IpState) :
    (s.ipDetails.truthy = true → presentedDetails log s.ipDetails = .ok s.ipDetails)
    ∧ (log.nullish = false →
        presentedDetails log s.ipDetails
          = .ok (if s.ipDetails.truthy then s.ipDetails
                 else if (log.getOwn "ipDetails").truthy then log.getOwn "ipDetails"
                 else .null)) := by
  constructor
  · intro h
    simp [presentedDetails, h, pure, Except.pure]
  · intro hl
    cases h : s.ipDetails.truthy
    · simp [presentedDetails, h, getProp, hl, jsOr, bind, Except.bind, pure, Except.pure]
    · simp [presentedDetails, h, pure, Except.pure]

/-- C8, at the failing input: `log = null` (or `undefined`) with no fetched
details. The claim gives `null` as the presented value; line 90 reads
`log.ipDetails` without optional chaining and throws a `TypeError` instead.
On the log record `{ipDetails: {country:"FR"}}` the presented country is
`"FR"`, and on a record without `ipDetails` the value is `null`. -/
theorem presentedDetails_throws_without_log :
    presentedDetails .null IpState.initial.ipDetails = .error .typeError
    ∧ presentedDetails .undefined IpState.initial.ipDetails = .error .typeError
    ∧ (presentedDetails frenchLog IpState.initial.ipDetails).map
        (fun d => d.optChain "country") = .ok (.str "FR")
    ∧ presentedDetails loginLog IpState.initial.ipDetails = .ok .null :=
  ⟨rfl, rfl, rfl, rfl⟩

/-- C9, as stated, fails: over the renders `"1.1.1.1"`, `"2.2.2.2"`,
`"1.1.1.1"` of one mount the address `"1.1.1.1"` is requested twice. -/
theorem same_address_requested_twice :
    issued (run Modal.initial [.render (logWithIp "1.1.1.1"), .render (logWithIp "2.2.2.2"),
        .render (logWithIp "1.1.1.1")])
      = [.str "1.1.1.1", .str "2.2.2.2", .str "1.1.1.1"] :=
  rfl

/-- C9, amended. A render whose address is that of the previous effect run
issues no request; any other render of a mounted instance issues one request
for its address when that is non-empty and none otherwise; over a whole mount
the requests issued are exactly those, in order, so an address left and later
returned to is requested again. -/
theorem requests_follow_address_changes :
    (∀ (log : JSValue) (m : Modal), depsChanged log m = false →
        issued (render log m) = issued m)
    ∧ (∀ (log : JSValue) (m : Modal), m.unmounted = false → depsChanged log m = true →
        issued (render log m) = issued m ++
          (if (log.optChain "ipAddress").truthy then [log.optChain "ipAddress"] else []))
    ∧ (∀ es : List Event, issued (run Modal.initial es) = requestsFor none es) := by
  refine ⟨issued_render_unchanged, issued_render_changed, ?_⟩
  intro es
  have := issued_run Modal.initial rfl es
  simpa [issued, Modal.initial] using this

/-- C9 amended, on the renders `"1.1.1.1"`, `"1.1.1.1"`, `"2.2.2.2"`: the
repeated address is requested once. -/
theorem requests_follow_address_changes_witness :
    issued (run Modal.initial [.render (logWithIp "1.1.1.1"), .render (logWithIp "1.1.1.1"),
        .render (logWithIp "2.2.2.2")])
      = [.str "1.1.1.1", .str "2.2.2.2"] := by
  rw [requests_follow_address_changes.2.2]
  rfl

end ActivityLogDetailModal
